import Mathlib

set_option maxHeartbeats 1000000
set_option maxRecDepth 4000

/-! Shallow embedding of MansionNET SearchBot (searchbot.py).

Python strings are modelled as `List Char`; `datetime` instants as `Int`
(in seconds: `timedelta(minutes=1)` is 60, `timedelta(days=1)` is 86400).
Fallible Python operations are modelled with `Option` / `Except`. -/

/-- Python whitespace test (`str.isspace`) for the ASCII range; these are the
characters removed by `str.strip()` / `str.lstrip()` on ASCII text. -/
def pyIsSpace (c : Char) : Bool :=
  c == ' ' || c == '\t' || c == '\n' || c == '\r' || c == '\x0b' || c == '\x0c'

/-- Python `s.lstrip()`. -/
def pyLstrip (s : List Char) : List Char := s.dropWhile pyIsSpace

/-- Python `s.strip()`. -/
def pyStrip (s : List Char) : List Char :=
  ((s.dropWhile pyIsSpace).reverse.dropWhile pyIsSpace).reverse

/-- Index of the leftmost occurrence of `sep` in `s` (Python `s.find(sep)`,
with `none` for "not found"). -/
def findSub (sep : List Char) : List Char → Option Nat
  | [] => if sep.isEmpty then some 0 else none
  | c :: rest =>
    if sep.isPrefixOf (c :: rest) then some 0
    else (findSub sep rest).map (· + 1)

/-- Python `s.split(sep, 1)` for a nonempty `sep`: `none` when `sep` does not
occur (Python then returns the one-element list `[s]`), otherwise the parts
before and after the first occurrence. -/
def pySplitOnce (sep s : List Char) : Option (List Char × List Char) :=
  match findSub sep s with
  | none => none
  | some i => some (s.take i, s.drop (i + sep.length))

/-- Python `s.split()`: split on whitespace runs, no empty parts. -/
def pyWords (s : List Char) : List (List Char) :=
  (s.splitOnP pyIsSpace).filter (fun w => !w.isEmpty)

/-- Python `s.rfind(c)` for a single-character needle: index of the rightmost
occurrence, `none` when absent (Python returns -1). -/
def rfindChar (c : Char) : List Char → Option Nat
  | [] => none
  | a :: rest =>
    match rfindChar c rest with
    | some i => some (i + 1)
    | none => if a == c then some 0 else none

/-- Python `s.replace(old, new)`: leftmost, non-overlapping replacement.
For `old = ''` with `new = ''` (the only way the bot could call it with an
empty needle) Python returns `s` unchanged, as here. -/
def pyReplace (old new : List Char) : List Char → List Char
  | [] => []
  | c :: rest =>
    if h : old.isPrefixOf (c :: rest) ∧ old ≠ [] then
      new ++ pyReplace old new ((c :: rest).drop old.length)
    else c :: pyReplace old new rest
termination_by s => s.length
decreasing_by
  · have h1 : 1 ≤ old.length := by
      cases old with
      | nil => exact absurd rfl h.2
      | cons a l => simp
    simp only [List.length_drop, List.length_cons]
    omega
  · simp

/-- Prepend a character to the first part of a split (helper for `splitCRLF`). -/
def consHead (c : Char) : List (List Char) → List (List Char)
  | [] => [[c]]
  | l :: ls => (c :: l) :: ls

/-- Python `buffer.split("\r\n")`: split on every leftmost, non-overlapping
occurrence of the two-character line terminator. -/
def splitCRLF : List Char → List (List Char)
  | [] => [[]]
  | [c] => [[c]]
  | c :: d :: rest =>
    if c = '\r' ∧ d = '\n' then [] :: splitCRLF rest
    else consHead c (splitCRLF (d :: rest))

/-- The text-level portion of one receive-loop iteration (searchbot.py lines
323-325), after the chunk has been decoded: append the decoded chunk to the
buffer, split on the terminator, keep the final (possibly incomplete) part as
the new buffer and emit the complete lines in order.  The per-chunk UTF-8
decode of line 323 and its `UnicodeDecodeError` path are modelled in
`byteFeed` below. -/
def framerFeed (buffer chunk : List Char) : List (List Char) × List Char :=
  let parts := splitCRLF (buffer ++ chunk)
  (parts.dropLast, parts.getLastD [])

/-- Feeding a sequence of already-decoded chunks through the framer: all
complete lines emitted, in order, together with the final buffer. -/
def framerRun (buffer : List Char) : List (List Char) → List (List Char) × List Char
  | [] => ([], buffer)
  | c :: cs =>
    let fed := framerFeed buffer c
    let rest := framerRun fed.2 cs
    (fed.1 ++ rest.1, rest.2)

/-- A UTF-8 continuation byte (`0x80..0xBF`). -/
def contByte (b : Nat) : Bool := decide (0x80 ≤ b) && decide (b ≤ 0xBF)

/-- The second byte accepted after a three-byte leading byte (Unicode Table
3-7: `E0` forbids overlong forms, `ED` forbids surrogates). -/
def utf8Cont3 (b c1 : Nat) : Bool :=
  if b = 0xE0 then decide (0xA0 ≤ c1) && decide (c1 ≤ 0xBF)
  else if b = 0xED then decide (0x80 ≤ c1) && decide (c1 ≤ 0x9F)
  else contByte c1

/-- The second byte accepted after a four-byte leading byte (Unicode Table
3-7: `F0` forbids overlong forms, `F4` forbids values past U+10FFFF). -/
def utf8Cont4 (b c1 : Nat) : Bool :=
  if b = 0xF0 then decide (0x90 ≤ c1) && decide (c1 ≤ 0xBF)
  else if b = 0xF4 then decide (0x80 ≤ c1) && decide (c1 ≤ 0x8F)
  else contByte c1

/-- Decode one UTF-8 sequence at the head of a byte list: the scalar value
and the number of bytes consumed (1 to 4), or `none` for any invalid leading
byte, invalid or missing continuation byte, overlong form, surrogate, value
past U+10FFFF, or truncated sequence.  The accepted ranges are those of
Unicode Table 3-7, which is what CPython's strict UTF-8 codec enforces. -/
def utf8Step : List Nat → Option (Nat × Nat)
  | [] => none
  | b :: rest =>
    if b < 0x80 then some (b, 1)
    else if 0xC2 ≤ b ∧ b ≤ 0xDF then
      match rest with
      | c1 :: _ =>
        if contByte c1 then some ((b - 0xC0) * 0x40 + (c1 - 0x80), 2) else none
      | [] => none
    else if 0xE0 ≤ b ∧ b ≤ 0xEF then
      match rest with
      | c1 :: c2 :: _ =>
        if (utf8Cont3 b c1 && contByte c2) = true then
          some ((b - 0xE0) * 0x1000 + (c1 - 0x80) * 0x40 + (c2 - 0x80), 3)
        else none
      | _ => none
    else if 0xF0 ≤ b ∧ b ≤ 0xF4 then
      match rest with
      | c1 :: c2 :: c3 :: _ =>
        if (utf8Cont4 b c1 && contByte c2 && contByte c3) = true then
          some ((b - 0xF0) * 0x40000 + (c1 - 0x80) * 0x1000 + (c2 - 0x80) * 0x40
            + (c3 - 0x80), 4)
        else none
      | _ => none
    else none

/-- Strict UTF-8 decoding of a whole byte sequence, as Python's
`bytes.decode("UTF-8")` performs it on each received chunk (searchbot.py line
323): decode one sequence at a time; any invalid or truncated sequence is a
`UnicodeDecodeError`, modelled as `none`. -/
def utf8Decode : List Nat → Option (List Char)
  | [] => some []
  | b :: rest =>
    match utf8Step (b :: rest) with
    | none => none
    | some (v, k) =>
      (utf8Decode (rest.drop (k - 1))).map (fun s => Char.ofNat v :: s)
termination_by l => l.length
decreasing_by
  calc (rest.drop (k - 1)).length ≤ rest.length := by
        rw [List.length_drop]; omega
    _ < (b :: rest).length := by simp

/-- One full iteration of the receive loop at the byte level (searchbot.py
lines 321-353): the received chunk is decoded as UTF-8; a
`UnicodeDecodeError` makes the loop discard the whole buffer and continue
with the next read, emitting nothing (lines 351-353); otherwise the decoded
text goes through the buffer-split-pop framing. -/
def byteFeed (buffer : List Char) (chunk : List Nat) : List (List Char) × List Char :=
  match utf8Decode chunk with
  | none => ([], [])
  | some s => framerFeed buffer s

/-- Feeding a sequence of raw byte chunks through the receive loop: all
complete lines emitted, in order, together with the final buffer. -/
def byteRun (buffer : List Char) : List (List Nat) → List (List Char) × List Char
  | [] => ([], buffer)
  | c :: cs =>
    let fed := byteFeed buffer c
    let rest := byteRun fed.2 cs
    (fed.1 ++ rest.1, rest.2)

/-- The decoded text of each chunk of a valid-chunk sequence. -/
def decodedChunks (cs : List (List Nat)) : List (List Char) :=
  cs.map (fun c => (utf8Decode c).getD [])

/-- The complete lines and the trailing fragment of a split, computed in one
pass: `splitCRLF s = (splitParts s).1 ++ [(splitParts s).2]` (proved below).
This is the (lines, new-buffer) pair the receive loop extracts from
`buffer.split("\r\n")` by popping the final part. -/
def splitParts : List Char → List (List Char) × List Char
  | [] => ([], [])
  | [c] => ([], [c])
  | c :: d :: rest =>
    if c = '\r' ∧ d = '\n' then
      (([] : List Char) :: (splitParts rest).1, (splitParts rest).2)
    else
      match (splitParts (d :: rest)).1 with
      | [] => ([], c :: (splitParts (d :: rest)).2)
      | l :: ls => ((c :: l) :: ls, (splitParts (d :: rest)).2)

/-- `RateLimiter` state (searchbot.py lines 18-23). -/
structure RateLimiter where
  requests_per_minute : Nat
  requests_per_day : Nat
  minute_window : List Int
  day_window : List Int
  deriving DecidableEq

/-- `RateLimiter.can_make_request` (searchbot.py lines 25-33): pop from the
head of each window every timestamp strictly older than the window duration,
then report whether both windows are under capacity.  The Python method
mutates the deques; here the pruned state is returned alongside the answer. -/
def RateLimiter.can_make_request (rl : RateLimiter) (now : Int) : Bool × RateLimiter :=
  let m := rl.minute_window.dropWhile (fun t => decide (t < now - 60))
  let d := rl.day_window.dropWhile (fun t => decide (t < now - 86400))
  (decide (m.length < rl.requests_per_minute) && decide (d.length < rl.requests_per_day),
   { rl with minute_window := m, day_window := d })

/-- `RateLimiter.add_request` (searchbot.py lines 35-38): append "now" to both
windows unconditionally. -/
def RateLimiter.add_request (rl : RateLimiter) (now : Int) : RateLimiter :=
  { rl with minute_window := rl.minute_window ++ [now],
            day_window := rl.day_window ++ [now] }

/-- An operation on the rate limiter, tagged with the clock value at which it
runs (`datetime.now()` at the moment of the call). -/
inductive RLOp where
  | check (t : Int)
  | addReq (t : Int)
  deriving DecidableEq

/-- Run a sequence of rate-limiter operations, also accumulating the list of
all timestamps ever recorded by `add_request` (the pruned entries are gone
from the deques, so the log is kept alongside the state). -/
def runRLLog (rl : RateLimiter) (log : List Int) : List RLOp → RateLimiter × List Int
  | [] => (rl, log)
  | RLOp.check t :: ops => runRLLog (rl.can_make_request t).2 log ops
  | RLOp.addReq t :: ops => runRLLog (rl.add_request t) (log ++ [t]) ops

/-- The clock values of a sequence of rate-limiter operations, in order. -/
def rlopTimes : List RLOp → List Int
  | [] => []
  | RLOp.check t :: ops => t :: rlopTimes ops
  | RLOp.addReq t :: ops => t :: rlopTimes ops

/-- A guarded use of the rate limiter, as the bot performs it: either a bare
gate check, or a full request that checks the gate at time `t₁` and records
at a (no earlier) time `t₂` only when the check passed. -/
inductive GOp where
  | check (t : Int)
  | request (t₁ t₂ : Int)
  deriving DecidableEq

/-- Run a sequence of guarded operations, logging every recorded timestamp. -/
def runGuarded (rl : RateLimiter) (log : List Int) : List GOp → RateLimiter × List Int
  | [] => (rl, log)
  | GOp.check t :: ops => runGuarded (rl.can_make_request t).2 log ops
  | GOp.request t₁ t₂ :: ops =>
    if (rl.can_make_request t₁).1 then
      runGuarded ((rl.can_make_request t₁).2.add_request t₂) (log ++ [t₂]) ops
    else runGuarded (rl.can_make_request t₁).2 log ops

/-- The clock values of a sequence of guarded operations, in order. -/
def gopTimes : List GOp → List Int
  | [] => []
  | GOp.check t :: ops => t :: gopTimes ops
  | GOp.request t₁ t₂ :: ops => t₁ :: t₂ :: gopTimes ops

/-- The timestamps of `log` lying in the trailing span of length `dur` ending
at `now`. -/
def spanCount (log : List Int) (now dur : Int) : Nat :=
  (log.filter (fun t => decide (now - dur ≤ t) && decide (t ≤ now))).length

/-- An observable step of `send_private_message` (searchbot.py lines 104-126):
a delivery line carrying one chunk of the payload, or the `time.sleep(0.5)`
pacing delay between chunk sends.  `removedWs` is bookkeeping only: it records
the whitespace deleted by `lstrip()` at a split point (the code sends nothing
for it); it is needed to state that the chunks reconstruct the input. -/
inductive SendEvent where
  | chunk (payload : List Char)
  | removedWs (ws : List Char)
  | sleep
  deriving DecidableEq

/-- The chunking loop of `send_private_message` (searchbot.py lines 110-122),
with the `max_length` bound as a parameter (the bot fixes it to 400): while
the text exceeds the bound, cut at the last `' '` in the first `max_length`
characters (hard cut at `max_length` when there is none), send the prefix,
strip leading whitespace from the remainder, sleep, repeat; a remainder that
fits is sent as the final line with no trailing sleep, and an empty text sends
nothing.  The dead `else` arm is unreachable for `1 ≤ maxLength`: it guards
the case in which the Python loop would not terminate (`maxLength = 0` with a
remainder that has no leading whitespace). -/
def send_private_message_events (maxLength : Nat) (message : List Char) : List SendEvent :=
  if message.isEmpty then []
  else if message.length ≤ maxLength then [SendEvent.chunk message]
  else
    SendEvent.chunk (message.take ((rfindChar ' ' (message.take maxLength)).getD maxLength))
      :: SendEvent.removedWs ((message.drop
          ((rfindChar ' ' (message.take maxLength)).getD maxLength)).takeWhile pyIsSpace)
      :: SendEvent.sleep ::
      (if h : ((message.drop ((rfindChar ' ' (message.take maxLength)).getD maxLength)).dropWhile
            pyIsSpace).length < message.length then
        send_private_message_events maxLength
          ((message.drop ((rfindChar ' ' (message.take maxLength)).getD maxLength)).dropWhile
            pyIsSpace)
      else [SendEvent.chunk ((message.drop
          ((rfindChar ' ' (message.take maxLength)).getD maxLength)).dropWhile pyIsSpace)])
termination_by message.length

/-- The chunks actually emitted by `send_private_message`, in order. -/
def sentChunks (evs : List SendEvent) : List (List Char) :=
  evs.filterMap (fun e => match e with | SendEvent.chunk c => some c | _ => none)

/-- The payload of an event, for reconstructing the original text: a chunk
contributes itself, a removed-whitespace marker contributes the whitespace it
stands for, a sleep contributes nothing. -/
def eventText (e : SendEvent) : List Char :=
  match e with
  | SendEvent.chunk c => c
  | SendEvent.removedWs w => w
  | SendEvent.sleep => []

/-- A search result as the bot consumes it: the `title` / `url` /
`description` fields of the JSON object, each possibly absent
(`result.get(...)` supplies the default). -/
structure SearchResult where
  title : Option (List Char)
  url : Option (List Char)
  description : Option (List Char)
  deriving DecidableEq

/-- The outcome of the one HTTP call of `search_hearch` (searchbot.py line
200): either a raised exception (timeout, transport error, JSON decode
failure) or a response with its status code and the parsed `results` list
(`data.get('results', [])`, so an absent field is the empty list). -/
inductive HttpResult where
  | exn
  | ok (status : Int) (results : List SearchResult)
  deriving DecidableEq

/-- `search_hearch` (searchbot.py lines 200-217), abstracted over the HTTP
outcome: a 200 response yields its first five results, any other status
yields `[]`, and any exception is caught and yields `[]`. -/
def search_hearch (response : HttpResult) : List SearchResult :=
  match response with
  | HttpResult.exn => []
  | HttpResult.ok status results => if status = 200 then results.take 5 else []

/-- `format_search_result` (searchbot.py lines 223-258). -/
def format_search_result (index : Nat) (r : SearchResult) : List Char :=
  let COLOR : List Char := ['\x03']
  let RESET : List Char := ['\x0F']
  let BLUE : List Char := "12".toList
  let GREEN : List Char := "03".toList
  let GRAY : List Char := "14".toList
  let title₀ := pyStrip (r.title.getD ("No title".toList))
  let url := pyStrip (r.url.getD ("No URL".toList))
  let desc₀ := pyReplace url [] (pyStrip (r.description.getD []))
  let desc₁ := List.intercalate [' '] (pyWords desc₀)
  let title := if title₀.length > 100 then title₀.take 97 ++ "...".toList else title₀
  let url' := if url.length > 100 then url.take 97 ++ "...".toList else url
  let desc := if desc₁.length > 200 then desc₁.take 197 ++ "...".toList else desc₁
  let line := (toString index).toList ++ ". ".toList
    ++ COLOR ++ GREEN ++ title ++ RESET ++ " | ".toList
    ++ COLOR ++ BLUE ++ url' ++ RESET
  if ¬desc.isEmpty ∧ desc.length > 20 then
    line ++ " | ".toList ++ COLOR ++ GRAY ++ desc ++ RESET
  else line

/-- The reply sent on a denied gate check (searchbot.py line 265). -/
def rateLimitNotice : List Char :=
  "Rate limit exceeded. Please try again later.".toList

/-- The reply sent on an empty query (searchbot.py line 270). -/
def usageNotice : List Char := "Usage: !search <query>".toList

/-- The reply sent when the search yields nothing (searchbot.py line 278). -/
def noResultsNotice : List Char := "No results found.".toList

/-- The private `!help` reply (searchbot.py lines 296-298). -/
def helpReplyText : List Char :=
  ("SearchBot Commands: !search <query> - Search the web privately (results sent via PM) | !help - Show this help message").toList

/-- The attribution line (searchbot.py lines 288-291). -/
def attributionText : List Char :=
  ("\x0314Search results powered by \x0312https://hearch.co/\x0314 - Privacy-focused metasearch\x0F").toList

/-- An observable step of `handle_private_message`: one
`send_private_message` call, the invocation of the external search
collaborator, the `add_request` mutation of the rate limiter, or a pacing
delay. -/
inductive Effect where
  | pm (target text : List Char)
  | searchCall (query : List Char)
  | recordReq
  | sleep
  deriving DecidableEq

/-- The per-result reply loop of `handle_private_message` (searchbot.py lines
282-285): each result is formatted and sent as its own private reply,
followed by a pacing delay. -/
def resultEffects (sender : List Char) : Nat → List SearchResult → List Effect
  | _, [] => []
  | i, r :: rs =>
    Effect.pm sender (format_search_result i r) :: Effect.sleep
      :: resultEffects sender (i + 1) rs

/-- `handle_private_message` (searchbot.py lines 260-303), abstracted over the
clock value `now` (the Python method reads `datetime.now()` inside the two
rate-limiter calls of one dispatch) and over the HTTP outcome `httpR` that
`search_hearch` would observe.  Returns the new rate-limiter state and the
ordered trace of observable effects. -/
def handle_private_message (rl : RateLimiter) (now : Int) (sender message : List Char)
    (httpR : HttpResult) : RateLimiter × List Effect :=
  if ("!search ".toList).isPrefixOf message then
    if (rl.can_make_request now).1 = false then
      ((rl.can_make_request now).2, [Effect.pm sender rateLimitNotice])
    else if (pyStrip (message.drop 8)).isEmpty then
      ((rl.can_make_request now).2, [Effect.pm sender usageNotice])
    else if (search_hearch httpR).isEmpty then
      ((rl.can_make_request now).2.add_request now,
        [Effect.searchCall (pyStrip (message.drop 8)), Effect.recordReq,
          Effect.pm sender noResultsNotice])
    else
      ((rl.can_make_request now).2.add_request now,
        [Effect.searchCall (pyStrip (message.drop 8)), Effect.recordReq]
          ++ resultEffects sender 1 ((search_hearch httpR).take 5)
          ++ [Effect.sleep, Effect.pm sender attributionText])
  else if message = "!help".toList then
    (rl, [Effect.pm sender helpReplyText])
  else (rl, [])

/-- An exception escaping a line of the dispatch loop. -/
inductive PyErr where
  | indexError
  | valueError
  deriving DecidableEq

/-- An action the dispatch loop takes for one framed line. -/
inductive LineAction where
  | pong (token : List Char)
  | privateMsg (sender message : List Char)
  | channelMsg (sender channel message : List Char)
  deriving DecidableEq

/-- The per-line body of the dispatch loop (searchbot.py lines 327-349):
answer a `PING` (the missing-argument `IndexError` of `line.split()[1]` is
raised outside any handler), then parse a line containing `PRIVMSG`: a line
without the `"PRIVMSG "` separator raises `IndexError`, which the
`except IndexError: continue` turns into a silent skip, while a line whose
remainder has no `":"` makes the two-element unpacking raise `ValueError`,
which nothing in the loop catches.  The parsed message is routed by target. -/
def dispatchLine (nickname : List Char) (channels : List (List Char))
    (line : List Char) : Except PyErr (List LineAction) :=
  let pingActs : Except PyErr (List LineAction) :=
    if ("PING".toList).isPrefixOf line then
      match (pyWords line).get? 1 with
      | none => Except.error PyErr.indexError
      | some tok => Except.ok [LineAction.pong tok]
    else Except.ok []
  match pingActs with
  | Except.error e => Except.error e
  | Except.ok acts =>
    if (findSub ("PRIVMSG".toList) line).isSome then
      let sender := (match pySplitOnce ("!".toList) line with
                     | some parts => parts.1
                     | none => line).drop 1
      match pySplitOnce ("PRIVMSG ".toList) line with
      | none => Except.ok acts
      | some parts =>
        match pySplitOnce (":".toList) parts.2 with
        | none => Except.error PyErr.valueError
        | some tm =>
          let target := pyStrip tm.1
          let message := pyStrip tm.2
          if target = nickname then Except.ok (acts ++ [LineAction.privateMsg sender message])
          else if target ∈ channels then
            Except.ok (acts ++ [LineAction.channelMsg sender target message])
          else Except.ok acts
    else Except.ok acts

/-! ### Helper lemmas -/

/-- On a list sorted in non-decreasing order, popping strictly-older entries
from the head removes exactly the strictly-older entries. -/
theorem sorted_dropWhile_lt_eq_filter (c : Int) :
    ∀ l : List Int, l.Sorted (· ≤ ·) →
      l.dropWhile (fun t => decide (t < c)) = l.filter (fun t => decide (c ≤ t)) := by
  intro l
  induction l with
  | nil => intro _; rfl
  | cons a l ih =>
    intro hs
    rw [List.sorted_cons] at hs
    by_cases hac : a < c
    · rw [List.dropWhile_cons_of_pos (by simpa using hac),
        List.filter_cons_of_neg (by simpa using hac)]
      exact ih hs.2
    · rw [List.dropWhile_cons_of_neg (by simpa using hac),
        List.filter_cons_of_pos (by simpa using not_lt.mp hac)]
      congr 1
      rw [eq_comm, List.filter_eq_self]
      intro x hx
      simpa using le_trans (not_lt.mp hac) (hs.1 x hx)

/-- Claim C2: `can_make_request` first removes from the head of each window
every timestamp strictly older than the window duration (a timestamp exactly
at the edge stays in-window), then returns true iff the minute window length
is below `requests_per_minute` and the day window length is below
`requests_per_day`; with exactly `N = requests_per_minute` timestamps all
within the last minute it returns false, and it returns true again once the
oldest of them ages past the 1-minute mark (day capacity not exhausted). -/
theorem C2_can_make_request_contract (rl : RateLimiter) (now : Int)
    (hm : rl.minute_window.Sorted (· ≤ ·)) (hd : rl.day_window.Sorted (· ≤ ·)) :
    ((rl.can_make_request now).2.minute_window
        = rl.minute_window.filter (fun t => decide (now - 60 ≤ t)))
    ∧ ((rl.can_make_request now).2.day_window
        = rl.day_window.filter (fun t => decide (now - 86400 ≤ t)))
    ∧ ((rl.can_make_request now).1 = true ↔
        ((rl.minute_window.filter (fun t => decide (now - 60 ≤ t))).length
            < rl.requests_per_minute
          ∧ (rl.day_window.filter (fun t => decide (now - 86400 ≤ t))).length
            < rl.requests_per_day))
    ∧ (rl.minute_window.length = rl.requests_per_minute →
        (∀ t ∈ rl.minute_window, now - 60 ≤ t) →
        (rl.can_make_request now).1 = false)
    ∧ (∀ now' t₀ rest, rl.minute_window = t₀ :: rest →
        t₀ < now' - 60 → (∀ t ∈ rest, now' - 60 ≤ t) →
        rl.minute_window.length = rl.requests_per_minute →
        (rl.day_window.filter (fun t => decide (now' - 86400 ≤ t))).length
            < rl.requests_per_day →
        (rl.can_make_request now').1 = true) := by
  have hmf := sorted_dropWhile_lt_eq_filter (now - 60) rl.minute_window hm
  have hdf := sorted_dropWhile_lt_eq_filter (now - 86400) rl.day_window hd
  refine ⟨?_, ?_, ?_, ?_, ?_⟩
  · simp [RateLimiter.can_make_request, hmf]
  · simp [RateLimiter.can_make_request, hdf]
  · simp [RateLimiter.can_make_request, hmf, hdf]
  · intro hlen hall
    have hfull : rl.minute_window.filter (fun t => decide (now - 60 ≤ t))
        = rl.minute_window := by
      rw [List.filter_eq_self]; intro x hx; simpa using hall x hx
    have hm2 : (rl.minute_window.dropWhile (fun t => decide (t < now - 60))).length
        = rl.requests_per_minute := by
      rw [hmf, hfull, hlen]
    simp only [RateLimiter.can_make_request]
    rw [hm2]
    simp
  · intro now' t₀ rest hwin ht₀ hrest hlen hday
    have hmf' := sorted_dropWhile_lt_eq_filter (now' - 60) rl.minute_window hm
    have hdf' := sorted_dropWhile_lt_eq_filter (now' - 86400) rl.day_window hd
    have hrestfull : rest.filter (fun t => decide (now' - 60 ≤ t)) = rest := by
      rw [List.filter_eq_self]; intro x hx; simpa using hrest x hx
    have hmfilter : rl.minute_window.filter (fun t => decide (now' - 60 ≤ t)) = rest := by
      rw [hwin, List.filter_cons_of_neg (by simp only [decide_eq_true_eq]; omega),
        hrestfull]
    have hmlen : (rl.minute_window.dropWhile (fun t => decide (t < now' - 60))).length
        < rl.requests_per_minute := by
      rw [hmf', hmfilter]
      rw [hwin] at hlen
      simp only [List.length_cons] at hlen
      omega
    have hdlen : (rl.day_window.dropWhile (fun t => decide (t < now' - 86400))).length
        < rl.requests_per_day := by
      rw [hdf']; exact hday
    simp only [RateLimiter.can_make_request, Bool.and_eq_true, decide_eq_true_eq]
    exact ⟨hmlen, hdlen⟩

/-- Witness for C2 at a concrete state: capacities (2, 3), minute window
`[-70, -30]`, day window `[-100, -30]`, checked at time 0. -/
theorem C2_witness :
    (([(-70 : Int), -30] : List Int).Sorted (· ≤ ·)
      ∧ ([(-100 : Int), -30] : List Int).Sorted (· ≤ ·))
    ∧ (((RateLimiter.mk 2 3 [-70, -30] [-100, -30]).can_make_request 0).2.minute_window
        = ([(-70 : Int), -30] : List Int).filter (fun t => decide ((0 : Int) - 60 ≤ t))
      ∧ ((RateLimiter.mk 2 3 [-70, -30] [-100, -30]).can_make_request 0).2.day_window
        = ([(-100 : Int), -30] : List Int).filter (fun t => decide ((0 : Int) - 86400 ≤ t))
      ∧ (((RateLimiter.mk 2 3 [-70, -30] [-100, -30]).can_make_request 0).1 = true ↔
          ((([(-70 : Int), -30] : List Int).filter (fun t => decide ((0 : Int) - 60 ≤ t))).length < 2
            ∧ ((([(-100 : Int), -30] : List Int).filter
                (fun t => decide ((0 : Int) - 86400 ≤ t))).length < 3)))
      ∧ (([(-70 : Int), -30] : List Int).length = 2 →
          (∀ t ∈ ([(-70 : Int), -30] : List Int), (0 : Int) - 60 ≤ t) →
          ((RateLimiter.mk 2 3 [-70, -30] [-100, -30]).can_make_request 0).1 = false)
      ∧ (∀ now' t₀ rest, ([(-70 : Int), -30] : List Int) = t₀ :: rest →
          t₀ < now' - 60 → (∀ t ∈ rest, now' - 60 ≤ t) →
          ([(-70 : Int), -30] : List Int).length = 2 →
          ((([(-100 : Int), -30] : List Int).filter
              (fun t => decide (now' - 86400 ≤ t))).length < 3) →
          ((RateLimiter.mk 2 3 [-70, -30] [-100, -30]).can_make_request now').1 = true)) :=
  ⟨⟨by decide, by decide⟩,
    C2_can_make_request_contract (RateLimiter.mk 2 3 [-70, -30] [-100, -30]) 0
      (by decide) (by decide)⟩

/-- `can_make_request` returns the state with both windows pruned. -/
theorem can_make_request_snd (rl : RateLimiter) (now : Int) :
    (rl.can_make_request now).2
      = { rl with
          minute_window := rl.minute_window.dropWhile (fun t => decide (t < now - 60)),
          day_window := rl.day_window.dropWhile (fun t => decide (t < now - 86400)) } := rfl

/-- `can_make_request` answers true iff both pruned windows are under capacity. -/
theorem can_make_request_fst (rl : RateLimiter) (now : Int) :
    (rl.can_make_request now).1 = true ↔
      ((rl.minute_window.dropWhile (fun t => decide (t < now - 60))).length
          < rl.requests_per_minute
        ∧ (rl.day_window.dropWhile (fun t => decide (t < now - 86400))).length
          < rl.requests_per_day) := by
  simp [RateLimiter.can_make_request]

/-- Entries below the trailing span contribute nothing to `spanCount`. -/
theorem spanCount_append_le (u w : List Int) (T now dur : Int)
    (hold : ∀ x ∈ u, x < T - dur) (hTn : T ≤ now) :
    spanCount (u ++ w) now dur ≤ w.length := by
  unfold spanCount
  rw [List.filter_append]
  have hu : u.filter (fun t => decide (now - dur ≤ t) && decide (t ≤ now)) = [] := by
    rw [List.filter_eq_nil_iff]
    intro x hx
    have hx' := hold x hx
    simp only [Bool.and_eq_true, decide_eq_true_eq, not_and]
    intro h1
    omega
  rw [hu]
  simpa using List.length_filter_le _ w

/-- Along any guarded run (gate check at `t₁`, record at `t₂ ≥ t₁` only when
the check passed), both deques stay under their capacities and the record log
is always "pruned-away old entries ++ current deque"; consequently the
recorded timestamps in the trailing minute/day spans are capped.  `T` is a
lower bound on the clock. -/
theorem runGuarded_inv (ops : List GOp) :
    ∀ (rl : RateLimiter) (log : List Int) (T now : Int),
      List.Chain' (· ≤ ·) (T :: (gopTimes ops ++ [now])) →
      rl.minute_window.length ≤ rl.requests_per_minute →
      rl.day_window.length ≤ rl.requests_per_day →
      (∃ u, log = u ++ rl.minute_window ∧ ∀ x ∈ u, x < T - 60) →
      (∃ v, log = v ++ rl.day_window ∧ ∀ x ∈ v, x < T - 86400) →
      spanCount (runGuarded rl log ops).2 now 60 ≤ rl.requests_per_minute
      ∧ spanCount (runGuarded rl log ops).2 now 86400 ≤ rl.requests_per_day := by
  induction ops with
  | nil =>
    intro rl log T now hchain hlm hld hu hv
    obtain ⟨u, hlog, holdu⟩ := hu
    obtain ⟨v, hlogv, holdv⟩ := hv
    have hTn : T ≤ now := by
      simp only [gopTimes, List.nil_append] at hchain
      exact (List.chain'_cons.mp hchain).1
    simp only [runGuarded]
    constructor
    · calc spanCount log now 60 ≤ rl.minute_window.length := by
            rw [hlog]; exact spanCount_append_le u _ T now 60 holdu hTn
        _ ≤ _ := hlm
    · calc spanCount log now 86400 ≤ rl.day_window.length := by
            rw [hlogv]; exact spanCount_append_le v _ T now 86400 holdv hTn
        _ ≤ _ := hld
  | cons op ops ih =>
    intro rl log T now hchain hlm hld hu hv
    obtain ⟨u, hlog, holdu⟩ := hu
    obtain ⟨v, hlogv, holdv⟩ := hv
    cases op with
    | check t =>
      simp only [gopTimes, List.cons_append] at hchain
      have hTt : T ≤ t := (List.chain'_cons.mp hchain).1
      have hchain' := (List.chain'_cons.mp hchain).2
      simp only [runGuarded, can_make_request_snd]
      refine ih _ _ t now hchain' ?_ ?_ ?_ ?_
      · simpa using le_trans (List.Sublist.length_le (List.dropWhile_sublist _)) hlm
      · simpa using le_trans (List.Sublist.length_le (List.dropWhile_sublist _)) hld
      · refine ⟨u ++ rl.minute_window.takeWhile (fun x => decide (x < t - 60)), ?_, ?_⟩
        · simp only []
          rw [hlog, List.append_assoc, List.takeWhile_append_dropWhile]
        · intro x hx
          rcases List.mem_append.mp hx with hxu | hxt
          · have := holdu x hxu; omega
          · have := List.mem_takeWhile_imp hxt
            simpa using this
      · refine ⟨v ++ rl.day_window.takeWhile (fun x => decide (x < t - 86400)), ?_, ?_⟩
        · simp only []
          rw [hlogv, List.append_assoc, List.takeWhile_append_dropWhile]
        · intro x hx
          rcases List.mem_append.mp hx with hxv | hxt
          · have := holdv x hxv; omega
          · have := List.mem_takeWhile_imp hxt
            simpa using this
    | request t₁ t₂ =>
      simp only [gopTimes, List.cons_append] at hchain
      have hTt₁ : T ≤ t₁ := (List.chain'_cons.mp hchain).1
      have hchain₁ := (List.chain'_cons.mp hchain).2
      have ht₁t₂ : t₁ ≤ t₂ := (List.chain'_cons.mp hchain₁).1
      have hchain₂ := (List.chain'_cons.mp hchain₁).2
      cases hc : (rl.can_make_request t₁).1 with
      | true =>
        obtain ⟨hmlt, hdlt⟩ := (can_make_request_fst rl t₁).mp hc
        simp only [runGuarded, hc, if_true, can_make_request_snd, RateLimiter.add_request]
        refine ih _ _ t₂ now hchain₂ ?_ ?_ ?_ ?_
        · simp only [List.length_append, List.length_cons, List.length_nil]
          omega
        · simp only [List.length_append, List.length_cons, List.length_nil]
          omega
        · refine ⟨u ++ rl.minute_window.takeWhile (fun x => decide (x < t₁ - 60)), ?_, ?_⟩
          · simp only []
            rw [hlog, List.append_assoc, List.append_assoc,
              ← List.append_assoc (rl.minute_window.takeWhile _),
              List.takeWhile_append_dropWhile]
          · intro x hx
            rcases List.mem_append.mp hx with hxu | hxt
            · have := holdu x hxu; omega
            · have := List.mem_takeWhile_imp hxt
              simp only [decide_eq_true_eq] at this
              omega
        · refine ⟨v ++ rl.day_window.takeWhile (fun x => decide (x < t₁ - 86400)), ?_, ?_⟩
          · simp only []
            rw [hlogv, List.append_assoc, List.append_assoc,
              ← List.append_assoc (rl.day_window.takeWhile _),
              List.takeWhile_append_dropWhile]
          · intro x hx
            rcases List.mem_append.mp hx with hxv | hxt
            · have := holdv x hxv; omega
            · have := List.mem_takeWhile_imp hxt
              simp only [decide_eq_true_eq] at this
              omega
      | false =>
        simp only [runGuarded, hc, if_false, can_make_request_snd]
        refine ih _ _ t₂ now hchain₂ ?_ ?_ ?_ ?_
        · simpa using le_trans (List.Sublist.length_le (List.dropWhile_sublist _)) hlm
        · simpa using le_trans (List.Sublist.length_le (List.dropWhile_sublist _)) hld
        · refine ⟨u ++ rl.minute_window.takeWhile (fun x => decide (x < t₁ - 60)), ?_, ?_⟩
          · simp only []
            rw [hlog, List.append_assoc, List.takeWhile_append_dropWhile]
          · intro x hx
            rcases List.mem_append.mp hx with hxu | hxt
            · have := holdu x hxu; omega
            · have := List.mem_takeWhile_imp hxt
              simp only [decide_eq_true_eq] at this
              omega
        · refine ⟨v ++ rl.day_window.takeWhile (fun x => decide (x < t₁ - 86400)), ?_, ?_⟩
          · simp only []
            rw [hlogv, List.append_assoc, List.takeWhile_append_dropWhile]
          · intro x hx
            rcases List.mem_append.mp hx with hxv | hxt
            · have := holdv x hxv; omega
            · have := List.mem_takeWhile_imp hxt
              simp only [decide_eq_true_eq] at this
              omega

/-- Counterexample to claim C1 as stated: over the unrestricted API, six bare
`add_request()` calls at time 0 against capacities (5, 500) leave six recorded
timestamps inside the trailing 60-second span, exceeding
`requests_per_minute = 5`.  (`add_request` appends unconditionally; nothing in
the class itself ties it to a passing `can_make_request`.) -/
theorem C1_counterexample :
    spanCount (runRLLog (RateLimiter.mk 5 500 [] []) []
        (List.replicate 6 (RLOp.addReq 0))).2 0 60
      > (RateLimiter.mk 5 500 [] []).requests_per_minute := by decide

/-- Claim C1 (amended): for any sequence of `can_make_request()` calls and
guarded requests — `add_request()` performed only immediately after a
`can_make_request()` that returned true, at a clock value no earlier than the
check, which is exactly how the bot uses the limiter — with a non-decreasing
clock, the number of recorded timestamps in the trailing 60-second span never
exceeds `requests_per_minute`, and in the trailing 24-hour span never exceeds
`requests_per_day`. -/
theorem C1_amended_budget_invariant (capM capD : Nat) (ops : List GOp) (now : Int)
    (hchain : List.Chain' (· ≤ ·) (gopTimes ops ++ [now])) :
    spanCount (runGuarded (RateLimiter.mk capM capD [] []) [] ops).2 now 60 ≤ capM
    ∧ spanCount (runGuarded (RateLimiter.mk capM capD [] []) [] ops).2 now 86400 ≤ capD := by
  have hinv : ∀ T, List.Chain' (· ≤ ·) (T :: (gopTimes ops ++ [now])) →
      spanCount (runGuarded (RateLimiter.mk capM capD [] []) [] ops).2 now 60 ≤ capM
      ∧ spanCount (runGuarded (RateLimiter.mk capM capD [] []) [] ops).2 now 86400 ≤ capD := by
    intro T hT
    exact runGuarded_inv ops (RateLimiter.mk capM capD [] []) [] T now hT
      (by simp) (by simp) ⟨[], by simp, by simp⟩ ⟨[], by simp, by simp⟩
  cases hg : gopTimes ops ++ [now] with
  | nil => exact absurd hg (by simp)
  | cons t ts =>
    refine hinv t ?_
    rw [hg]
    exact List.chain'_cons.mpr ⟨le_refl t, by rw [← hg]; exact hchain⟩

/-- Witness for the amended C1: one guarded request (check and record at
time 0) against capacities (1, 10), observed at time 5. -/
theorem C1_witness :
    List.Chain' (· ≤ ·) (gopTimes [GOp.request 0 0] ++ [(5 : Int)])
    ∧ (spanCount (runGuarded (RateLimiter.mk 1 10 [] []) [] [GOp.request 0 0]).2 5 60 ≤ 1
      ∧ spanCount (runGuarded (RateLimiter.mk 1 10 [] []) [] [GOp.request 0 0]).2 5 86400 ≤ 10) :=
  ⟨by norm_num [gopTimes, List.chain'_cons],
    C1_amended_budget_invariant 1 10 [GOp.request 0 0] 5
      (by norm_num [gopTimes, List.chain'_cons])⟩

/-- Dropping a prefix leaves a suffix. -/
theorem dropWhile_isSuffix {α : Type} (p : α → Bool) (l : List α) :
    l.dropWhile p <:+ l :=
  ⟨l.takeWhile p, List.takeWhile_append_dropWhile p l⟩

/-- Dropping by a weaker predicate first does not change a `dropWhile` by a
stronger one. -/
theorem dropWhile_dropWhile_of_imp {α : Type} (p q : α → Bool)
    (himp : ∀ x, p x = true → q x = true) :
    ∀ l : List α, (l.dropWhile p).dropWhile q = l.dropWhile q := by
  intro l
  induction l with
  | nil => rfl
  | cons a l ih =>
    cases hp : p a with
    | true =>
      rw [List.dropWhile_cons, hp, if_pos rfl, ih, List.dropWhile_cons, himp a hp,
        if_pos rfl]
    | false =>
      rw [List.dropWhile_cons, hp]
      simp

/-- Along any run of `can_make_request` / `add_request` with a non-decreasing
clock (lower-bounded by `T`), the minute window stays a contiguous suffix of
the day window and both windows stay sorted; all entries stay bounded by the
clock. -/
theorem runRLLog_shape_inv (ops : List RLOp) :
    ∀ (rl : RateLimiter) (log : List Int) (T : Int),
      List.Chain' (· ≤ ·) (T :: rlopTimes ops) →
      rl.minute_window.Sorted (· ≤ ·) →
      rl.day_window.Sorted (· ≤ ·) →
      rl.minute_window <:+ rl.day_window →
      (∀ x ∈ rl.day_window, x ≤ T) →
      (runRLLog rl log ops).1.minute_window <:+ (runRLLog rl log ops).1.day_window
      ∧ (runRLLog rl log ops).1.minute_window.Sorted (· ≤ ·)
      ∧ (runRLLog rl log ops).1.day_window.Sorted (· ≤ ·) := by
  induction ops with
  | nil =>
    intro rl log T _ hsm hsd hsuf _
    exact ⟨hsuf, hsm, hsd⟩
  | cons op ops ih =>
    intro rl log T hchain hsm hsd hsuf hbound
    cases op with
    | check t =>
      simp only [rlopTimes] at hchain
      have hTt : T ≤ t := (List.chain'_cons.mp hchain).1
      have hchain' := (List.chain'_cons.mp hchain).2
      simp only [runRLLog, can_make_request_snd]
      have himp : ∀ x : Int, decide (x < t - 86400) = true → decide (x < t - 60) = true := by
        intro x hx
        simp only [decide_eq_true_eq] at hx ⊢
        omega
      refine ih _ _ t hchain' ?_ ?_ ?_ ?_
      · exact List.Pairwise.sublist (List.dropWhile_sublist _) hsm
      · exact List.Pairwise.sublist (List.dropWhile_sublist _) hsd
      · simp only []
        rcases hsuf with ⟨v, hv⟩
        rw [← hv, List.dropWhile_append]
        by_cases he : (v.dropWhile (fun x => decide (x < t - 86400))).isEmpty
        · rw [if_pos he,
            ← dropWhile_dropWhile_of_imp (fun x => decide (x < t - 86400))
              (fun x => decide (x < t - 60)) himp rl.minute_window]
          exact dropWhile_isSuffix _ _
        · rw [if_neg he]
          exact (dropWhile_isSuffix _ _).trans (List.suffix_append _ _)
      · intro x hx
        exact le_trans (hbound x ((List.dropWhile_sublist _).subset hx)) hTt
    | addReq t =>
      simp only [rlopTimes] at hchain
      have hTt : T ≤ t := (List.chain'_cons.mp hchain).1
      have hchain' := (List.chain'_cons.mp hchain).2
      simp only [runRLLog, RateLimiter.add_request]
      have hmd : ∀ x ∈ rl.minute_window, x ∈ rl.day_window :=
        fun x hx => hsuf.sublist.subset hx
      refine ih _ _ t hchain' ?_ ?_ ?_ ?_
      · refine List.pairwise_append.mpr ⟨hsm, by simp, ?_⟩
        intro a ha b hb
        rw [List.mem_singleton] at hb
        subst hb
        exact le_trans (hbound a (hmd a ha)) hTt
      · refine List.pairwise_append.mpr ⟨hsd, by simp, ?_⟩
        intro a ha b hb
        rw [List.mem_singleton] at hb
        subst hb
        exact le_trans (hbound a ha) hTt
      · rcases hsuf with ⟨v, hv⟩
        exact ⟨v, by rw [← List.append_assoc, hv]⟩
      · intro x hx
        rcases List.mem_append.mp hx with hxd | hxt
        · exact le_trans (hbound x hxd) hTt
        · rw [List.mem_singleton] at hxt
          subst hxt
          exact le_refl x

/-- Claim C10: in every state reachable from the empty limiter by any
sequence of `can_make_request` / `add_request` calls under a non-decreasing
clock, the minute window is a contiguous suffix of the day window (so every
timestamp in the minute window also occurs in the day window) and both
windows are sorted in non-decreasing order. -/
theorem C10_window_shape (capM capD : Nat) (ops : List RLOp)
    (hchain : List.Chain' (· ≤ ·) (rlopTimes ops)) :
    (runRLLog (RateLimiter.mk capM capD [] []) [] ops).1.minute_window
        <:+ (runRLLog (RateLimiter.mk capM capD [] []) [] ops).1.day_window
    ∧ (∀ x ∈ (runRLLog (RateLimiter.mk capM capD [] []) [] ops).1.minute_window,
        x ∈ (runRLLog (RateLimiter.mk capM capD [] []) [] ops).1.day_window)
    ∧ (runRLLog (RateLimiter.mk capM capD [] []) [] ops).1.minute_window.Sorted (· ≤ ·)
    ∧ (runRLLog (RateLimiter.mk capM capD [] []) [] ops).1.day_window.Sorted (· ≤ ·) := by
  have hmain : ∀ T, List.Chain' (· ≤ ·) (T :: rlopTimes ops) →
      (runRLLog (RateLimiter.mk capM capD [] []) [] ops).1.minute_window
          <:+ (runRLLog (RateLimiter.mk capM capD [] []) [] ops).1.day_window
      ∧ (runRLLog (RateLimiter.mk capM capD [] []) [] ops).1.minute_window.Sorted (· ≤ ·)
      ∧ (runRLLog (RateLimiter.mk capM capD [] []) [] ops).1.day_window.Sorted (· ≤ ·) := by
    intro T hT
    exact runRLLog_shape_inv ops (RateLimiter.mk capM capD [] []) [] T hT
      (by simp) (by simp) (by simp) (by simp)
  have hchainT : ∃ T, List.Chain' (· ≤ ·) (T :: rlopTimes ops) := by
    rcases ht : rlopTimes ops with _ | ⟨t, ts⟩
    · exact ⟨0, by simp⟩
    · rw [ht] at hchain
      exact ⟨t, List.chain'_cons.mpr ⟨le_refl t, hchain⟩⟩
  obtain ⟨T, hT⟩ := hchainT
  have hres := hmain T hT
  exact ⟨hres.1, fun x hx => hres.1.sublist.subset hx, hres.2.1, hres.2.2⟩

/-- Witness for C10: a record at time 0 followed by a check at time 70
(which prunes the minute window but not the day window). -/
theorem C10_witness :
    List.Chain' (· ≤ ·) (rlopTimes [RLOp.addReq 0, RLOp.check 70])
    ∧ ((runRLLog (RateLimiter.mk 5 500 [] []) [] [RLOp.addReq 0, RLOp.check 70]).1.minute_window
        <:+ (runRLLog (RateLimiter.mk 5 500 [] []) [] [RLOp.addReq 0, RLOp.check 70]).1.day_window
      ∧ (∀ x ∈ (runRLLog (RateLimiter.mk 5 500 [] []) []
            [RLOp.addReq 0, RLOp.check 70]).1.minute_window,
          x ∈ (runRLLog (RateLimiter.mk 5 500 [] []) []
            [RLOp.addReq 0, RLOp.check 70]).1.day_window)
      ∧ (runRLLog (RateLimiter.mk 5 500 [] []) []
          [RLOp.addReq 0, RLOp.check 70]).1.minute_window.Sorted (· ≤ ·)
      ∧ (runRLLog (RateLimiter.mk 5 500 [] []) []
          [RLOp.addReq 0, RLOp.check 70]).1.day_window.Sorted (· ≤ ·)) :=
  ⟨by norm_num [rlopTimes, List.chain'_cons],
    C10_window_shape 5 500 [RLOp.addReq 0, RLOp.check 70]
      (by norm_num [rlopTimes, List.chain'_cons])⟩

/-- A split with no complete line leaves the whole input as the fragment. -/
theorem splitParts_lines_nil : ∀ s : List Char, (splitParts s).1 = [] → (splitParts s).2 = s := by
  intro s
  induction s using splitParts.induct with
  | case1 => intro _; rfl
  | case2 c => intro _; rfl
  | case3 c d rest hcd ih =>
    intro h
    rw [splitParts, if_pos hcd] at h
    exact absurd h (by simp)
  | case4 c d rest hcd hnil ih =>
    intro _
    rw [splitParts, if_neg hcd, hnil]
    show c :: (splitParts (d :: rest)).2 = c :: d :: rest
    rw [ih hnil]
  | case5 c d rest hcd l ls hcons ih =>
    intro h
    rw [splitParts, if_neg hcd, hcons] at h
    exact absurd h (by simp)

/-- Prepending one character to the input of `splitParts`, when it cannot
complete a terminator with the input's first character. -/
theorem splitParts_cons (c : Char) (s : List Char)
    (h : ¬(c = '\r' ∧ s.head? = some '\n')) :
    splitParts (c :: s)
      = match (splitParts s).1 with
        | [] => ([], c :: (splitParts s).2)
        | l :: ls => ((c :: l) :: ls, (splitParts s).2) := by
  cases s with
  | nil => rfl
  | cons d rest =>
    have hcd : ¬(c = '\r' ∧ d = '\n') := by simpa using h
    rw [splitParts, if_neg hcd]

/-- `splitCRLF` is `splitParts` with the fragment re-attached as final part. -/
theorem splitCRLF_eq_splitParts :
    ∀ s : List Char, splitCRLF s = (splitParts s).1 ++ [(splitParts s).2] := by
  intro s
  induction s using splitParts.induct with
  | case1 => rfl
  | case2 c => rfl
  | case3 c d rest hcd ih =>
    rw [splitCRLF, if_pos hcd, splitParts, if_pos hcd, ih]
    simp
  | case4 c d rest hcd hnil ih =>
    rw [splitCRLF, if_neg hcd, splitParts, if_neg hcd, hnil, ih, hnil]
    simp [consHead]
  | case5 c d rest hcd l ls hcons ih =>
    rw [splitCRLF, if_neg hcd, splitParts, if_neg hcd, hcons, ih, hcons]
    simp [consHead]

/-- The fragment left by a split contains no terminator: splitting it again
yields no line. -/
theorem splitParts_fragment :
    ∀ s : List Char, splitParts ((splitParts s).2) = ([], (splitParts s).2) := by
  intro s
  induction s using splitParts.induct with
  | case1 => rfl
  | case2 c => rfl
  | case3 c d rest hcd ih =>
    rw [splitParts, if_pos hcd]
    exact ih
  | case4 c d rest hcd hnil ih =>
    have hfrag : (splitParts (d :: rest)).2 = d :: rest := splitParts_lines_nil _ hnil
    rw [splitParts, if_neg hcd, hnil]
    show splitParts (c :: (splitParts (d :: rest)).2) = ([], c :: (splitParts (d :: rest)).2)
    rw [hfrag, splitParts, if_neg hcd, hnil]
    show ([], c :: (splitParts (d :: rest)).2) = ([], c :: d :: rest)
    rw [hfrag]
  | case5 c d rest hcd l ls hcons ih =>
    rw [splitParts, if_neg hcd, hcons]
    exact ih

/-- Key compositionality of line splitting: splitting `a ++ b` emits the
lines of `a` followed by the lines of "fragment of `a`, then `b`", and keeps
the latter split's fragment.  This is what makes buffered framing
split-invariant. -/
theorem splitParts_append (b : List Char) :
    ∀ a : List Char,
      splitParts (a ++ b)
        = ((splitParts a).1 ++ (splitParts ((splitParts a).2 ++ b)).1,
           (splitParts ((splitParts a).2 ++ b)).2) := by
  intro a
  induction a using splitParts.induct with
  | case1 => simp [splitParts]
  | case2 c => simp [splitParts]
  | case3 c d rest hcd ih =>
    obtain ⟨hc, hd⟩ := hcd
    subst hc; subst hd
    show splitParts ('\r' :: '\n' :: (rest ++ b)) = _
    rw [splitParts, if_pos ⟨rfl, rfl⟩, splitParts, if_pos ⟨rfl, rfl⟩, ih]
    simp
  | case4 c d rest hcd hnil ih =>
    have hfrag : (splitParts (d :: rest)).2 = d :: rest := splitParts_lines_nil _ hnil
    have ha : splitParts (c :: d :: rest) = ([], c :: d :: rest) := by
      rw [splitParts, if_neg hcd, hnil]
      show ([], c :: (splitParts (d :: rest)).2) = ([], c :: d :: rest)
      rw [hfrag]
    rw [ha]
    simp
  | case5 c d rest hcd l ls hcons ih =>
    have ha : splitParts (c :: d :: rest) = ((c :: l) :: ls, (splitParts (d :: rest)).2) := by
      rw [splitParts, if_neg hcd, hcons]
    have hih : splitParts (d :: (rest ++ b))
        = ((splitParts (d :: rest)).1 ++ (splitParts ((splitParts (d :: rest)).2 ++ b)).1,
           (splitParts ((splitParts (d :: rest)).2 ++ b)).2) := by
      simpa using ih
    show splitParts (c :: d :: (rest ++ b)) = _
    conv_lhs => rw [splitParts, if_neg hcd]
    rw [hih, hcons, ha]
    rfl

/-- One framer feed is exactly one `splitParts` of buffer-plus-chunk. -/
theorem framerFeed_eq_splitParts (buffer chunk : List Char) :
    framerFeed buffer chunk = splitParts (buffer ++ chunk) := by
  show ((splitCRLF (buffer ++ chunk)).dropLast, (splitCRLF (buffer ++ chunk)).getLastD []) = _
  rw [splitCRLF_eq_splitParts, List.dropLast_concat, List.getLastD_concat]

/-- Feeding any chunk sequence after a terminator-free buffer yields exactly
the lines and fragment of one split of the concatenation. -/
theorem framerRun_eq_splitParts (chunks : List (List Char)) :
    ∀ buffer : List Char, (splitParts buffer).1 = [] →
      framerRun buffer chunks
        = ((splitParts (buffer ++ chunks.flatten)).1,
           (splitParts (buffer ++ chunks.flatten)).2) := by
  induction chunks with
  | nil =>
    intro buffer hb
    rw [framerRun]
    simp only [List.flatten_nil, List.append_nil]
    rw [hb, splitParts_lines_nil buffer hb]
  | cons c cs ih =>
    intro buffer hb
    rw [framerRun]
    simp only [framerFeed_eq_splitParts]
    have hfragnil : (splitParts ((splitParts (buffer ++ c)).2)).1 = [] := by
      rw [splitParts_fragment]
    rw [ih _ hfragnil]
    rw [List.flatten_cons, ← List.append_assoc]
    rw [splitParts_append (cs.flatten) (buffer ++ c)]

/-- Character-level split invariance: for any partition of already-decoded
text into successive chunks, feeding the chunks one at a time through the
buffer-split-pop framing produces exactly the same lines (and final buffer)
as feeding the whole text at once. -/
theorem framerRun_split_invariant (chunks : List (List Char)) :
    framerRun [] chunks = framerRun [] [chunks.flatten] := by
  rw [framerRun_eq_splitParts chunks [] (by rfl),
    framerRun_eq_splitParts [chunks.flatten] [] (by rfl)]
  simp

/-- `getLast?` looks only at a nonempty right part. -/
theorem getLast?_append_right {α : Type} (l₁ l₂ : List α) (h : l₂ ≠ []) :
    (l₁ ++ l₂).getLast? = l₂.getLast? := by
  rcases l₂.eq_nil_or_concat with rfl | ⟨l, a, rfl⟩
  · exact absurd rfl h
  · rw [List.getLast?_append, List.concat_eq_append, List.getLast?_concat]
    rfl

/-- `rfindChar` returns an index holding the needle. -/
theorem rfindChar_getElem (c : Char) :
    ∀ (s : List Char) (i : Nat), rfindChar c s = some i → s[i]? = some c := by
  intro s
  induction s with
  | nil => intro i h; exact absurd h (by rw [rfindChar]; simp)
  | cons a rest ih =>
    intro i h
    rw [rfindChar] at h
    cases hr : rfindChar c rest with
    | some j =>
      rw [hr] at h
      simp only [Option.some.injEq] at h
      subst h
      rw [List.getElem?_cons_succ]
      exact ih j hr
    | none =>
      rw [hr] at h
      by_cases hac : a = c
      · rw [if_pos (by simp [hac])] at h
        simp only [Option.some.injEq] at h
        subst h
        rw [List.getElem?_cons_zero, hac]
      · rw [if_neg (by simp [hac])] at h
        exact absurd h (by simp)

/-- When `rfindChar` finds nothing, the needle is nowhere. -/
theorem rfindChar_none_getElem (c : Char) :
    ∀ s : List Char, rfindChar c s = none → ∀ j : Nat, s[j]? ≠ some c := by
  intro s
  induction s with
  | nil => intro _ j; simp
  | cons a rest ih =>
    intro h j
    rw [rfindChar] at h
    cases hr : rfindChar c rest with
    | some k => rw [hr] at h; exact absurd h (by simp)
    | none =>
      rw [hr] at h
      by_cases hac : a = c
      · rw [if_pos (by simp [hac])] at h
        exact absurd h (by simp)
      · cases j with
        | zero => rw [List.getElem?_cons_zero]; simp [hac]
        | succ j' => rw [List.getElem?_cons_succ]; exact ih hr j'

/-- `rfindChar` returns the rightmost occurrence. -/
theorem rfindChar_last (c : Char) :
    ∀ (s : List Char) (i : Nat), rfindChar c s = some i →
      ∀ j : Nat, i < j → s[j]? ≠ some c := by
  intro s
  induction s with
  | nil => intro i h; exact absurd h (by rw [rfindChar]; simp)
  | cons a rest ih =>
    intro i h j hij
    rw [rfindChar] at h
    cases hr : rfindChar c rest with
    | some k =>
      rw [hr] at h
      simp only [Option.some.injEq] at h
      subst h
      cases j with
      | zero => omega
      | succ j' =>
        rw [List.getElem?_cons_succ]
        exact ih k hr j' (by omega)
    | none =>
      rw [hr] at h
      by_cases hac : a = c
      · rw [if_pos (by simp [hac])] at h
        simp only [Option.some.injEq] at h
        subst h
        cases j with
        | zero => omega
        | succ j' =>
          rw [List.getElem?_cons_succ]
          exact rfindChar_none_getElem c rest hr j'
      · rw [if_neg (by simp [hac])] at h
        exact absurd h (by simp)

/-- An index found inside the needle's haystack is within bounds. -/
theorem rfindChar_lt_length (c : Char) (s : List Char) (i : Nat)
    (h : rfindChar c s = some i) : i < s.length := by
  have hg := rfindChar_getElem c s i h
  exact (List.getElem?_eq_some.mp hg).1

/-- Unfolding: the empty text sends nothing (`while message:` never runs). -/
theorem sendEvents_nil (maxLength : Nat) :
    send_private_message_events maxLength [] = [] := by
  rw [send_private_message_events]
  simp

/-- Unfolding: a text within the bound is sent as a single chunk. -/
theorem sendEvents_fits (maxLength : Nat) (message : List Char)
    (hne : message ≠ []) (hle : message.length ≤ maxLength) :
    send_private_message_events maxLength message = [SendEvent.chunk message] := by
  rw [send_private_message_events]
  rw [if_neg (by simpa using hne), if_pos hle]

/-- Unfolding: an over-long text splits off one chunk, records the stripped
whitespace, sleeps, and continues on the remainder. -/
theorem sendEvents_step (maxLength : Nat) (message : List Char)
    (hgt : maxLength < message.length)
    (hlt : ((message.drop ((rfindChar ' ' (message.take maxLength)).getD maxLength)).dropWhile
        pyIsSpace).length < message.length) :
    send_private_message_events maxLength message
      = SendEvent.chunk (message.take ((rfindChar ' ' (message.take maxLength)).getD maxLength))
        :: SendEvent.removedWs ((message.drop
            ((rfindChar ' ' (message.take maxLength)).getD maxLength)).takeWhile pyIsSpace)
        :: SendEvent.sleep
        :: send_private_message_events maxLength
            ((message.drop ((rfindChar ' ' (message.take maxLength)).getD maxLength)).dropWhile
              pyIsSpace) := by
  have hne : ¬message.isEmpty = true := by
    cases message with
    | nil => simp at hgt
    | cons a t => simp
  rw [send_private_message_events]
  rw [if_neg hne, if_neg (by omega)]
  rw [dif_pos hlt]

/-- For a positive bound, the remainder of one chunking step is strictly
shorter: the corresponding Python loop always terminates. -/
theorem chunkRest_lt (maxLength : Nat) (hL : 1 ≤ maxLength) (message : List Char)
    (hgt : maxLength < message.length) :
    ((message.drop ((rfindChar ' ' (message.take maxLength)).getD maxLength)).dropWhile
        pyIsSpace).length < message.length := by
  cases hf : rfindChar ' ' (message.take maxLength) with
  | none =>
    have h1 : (message.drop maxLength).length < message.length := by
      rw [List.length_drop]; omega
    calc ((message.drop ((Option.none : Option Nat).getD maxLength)).dropWhile
            pyIsSpace).length
        ≤ (message.drop maxLength).length :=
          List.Sublist.length_le (List.dropWhile_sublist _)
      _ < _ := h1
  | some i =>
    simp only [Option.getD_some]
    by_cases hi : i = 0
    · subst hi
      have hg := rfindChar_getElem ' ' (message.take maxLength) 0 hf
      cases message with
      | nil => simp at hgt
      | cons a t =>
        have ha : a = ' ' := by
          have : 0 < maxLength := hL
          rw [List.take_cons, List.getElem?_cons_zero] at hg
          · simpa using hg
          · omega
        simp only [List.drop_zero]
        rw [List.dropWhile_cons, ha]
        rw [if_pos (by norm_num [pyIsSpace])]
        calc (t.dropWhile pyIsSpace).length ≤ t.length :=
              List.Sublist.length_le (List.dropWhile_sublist _)
          _ < (a :: t).length := by simp
    · have h1 : (message.drop i).length < message.length := by
        rw [List.length_drop]
        have := rfindChar_lt_length ' ' _ _ hf
        rw [List.length_take] at this
        omega
      calc ((message.drop i).dropWhile pyIsSpace).length
          ≤ (message.drop i).length := List.Sublist.length_le (List.dropWhile_sublist _)
        _ < _ := h1

/-- The chosen split point never exceeds the length bound. -/
theorem splitPoint_le (maxLength : Nat) (x : List Char) :
    (rfindChar ' ' (x.take maxLength)).getD maxLength ≤ maxLength := by
  cases hf : rfindChar ' ' (x.take maxLength) with
  | none => simp
  | some i =>
    have hi := rfindChar_lt_length ' ' _ _ hf
    rw [List.length_take] at hi
    simp only [Option.getD_some]
    omega

/-- Every chunk emitted by the chunking loop fits the bound. -/
theorem sendEvents_chunk_le (maxLength : Nat) (hL : 1 ≤ maxLength) :
    ∀ message c, SendEvent.chunk c ∈ send_private_message_events maxLength message →
      c.length ≤ maxLength := by
  intro message
  induction message using send_private_message_events.induct maxLength with
  | case1 x hx =>
    intro c hc
    rw [send_private_message_events, if_pos hx] at hc
    simp at hc
  | case2 x hx hle =>
    intro c hc
    rw [sendEvents_fits maxLength x (by simpa using hx) hle, List.mem_singleton] at hc
    injection hc with h
    subst h
    exact hle
  | case3 x hne hle ih =>
    intro c hc
    have hgt : maxLength < x.length := by omega
    have hlt := chunkRest_lt maxLength hL x hgt
    rw [sendEvents_step maxLength x hgt hlt] at hc
    simp only [List.mem_cons] at hc
    rcases hc with h1 | h2 | h3 | h4
    · injection h1 with h
      subst h
      rw [List.length_take]
      have := splitPoint_le maxLength x
      omega
    · exact absurd h2 (by simp)
    · exact absurd h3 (by simp)
    · exact ih hlt c h4

/-- Concatenating chunk payloads and the whitespace removed at the split
points reconstructs the input text. -/
theorem sendEvents_reconstruct (maxLength : Nat) (hL : 1 ≤ maxLength) :
    ∀ message : List Char,
      ((send_private_message_events maxLength message).map eventText).flatten = message := by
  intro message
  induction message using send_private_message_events.induct maxLength with
  | case1 x hx =>
    rw [send_private_message_events, if_pos hx]
    simpa using (List.isEmpty_iff.mp hx).symm
  | case2 x hx hle =>
    rw [sendEvents_fits maxLength x (by simpa using hx) hle]
    simp [eventText]
  | case3 x hne hle ih =>
    have hgt : maxLength < x.length := by omega
    have hlt := chunkRest_lt maxLength hL x hgt
    rw [sendEvents_step maxLength x hgt hlt]
    simp only [List.map_cons, List.flatten_cons, eventText]
    rw [ih hlt]
    rw [List.nil_append, List.takeWhile_append_dropWhile, List.take_append_drop]

/-- Whatever the split points strip is whitespace. -/
theorem sendEvents_removed_ws (maxLength : Nat) (hL : 1 ≤ maxLength) :
    ∀ message w, SendEvent.removedWs w ∈ send_private_message_events maxLength message →
      ∀ ch ∈ w, pyIsSpace ch = true := by
  intro message
  induction message using send_private_message_events.induct maxLength with
  | case1 x hx =>
    intro w hw
    rw [send_private_message_events, if_pos hx] at hw
    simp at hw
  | case2 x hx hle =>
    intro w hw
    rw [sendEvents_fits maxLength x (by simpa using hx) hle, List.mem_singleton] at hw
    exact absurd hw (by simp)
  | case3 x hne hle ih =>
    intro w hw
    have hgt : maxLength < x.length := by omega
    have hlt := chunkRest_lt maxLength hL x hgt
    rw [sendEvents_step maxLength x hgt hlt] at hw
    simp only [List.mem_cons] at hw
    rcases hw with h1 | h2 | h3 | h4
    · exact absurd h1 (by simp)
    · injection h2 with h
      subst h
      intro ch hch
      exact List.mem_takeWhile_imp hch
    · exact absurd h3 (by simp)
    · exact ih hlt w h4

/-- When the text does not end in whitespace, the last emitted event is a
chunk: no pacing delay trails the final chunk. -/
theorem sendEvents_last_chunk (maxLength : Nat) (hL : 1 ≤ maxLength) :
    ∀ message : List Char, ∀ lc, message.getLast? = some lc → pyIsSpace lc = false →
      ∃ cl, (send_private_message_events maxLength message).getLast?
          = some (SendEvent.chunk cl) := by
  intro message
  induction message using send_private_message_events.induct maxLength with
  | case1 x hx =>
    intro lc hlc hsp
    rw [List.isEmpty_iff.mp hx] at hlc
    simp at hlc
  | case2 x hx hle =>
    intro lc hlc hsp
    rw [sendEvents_fits maxLength x (by simpa using hx) hle]
    exact ⟨x, rfl⟩
  | case3 x hne hle ih =>
    intro lc hlc hsp
    have hgt : maxLength < x.length := by omega
    have hlt := chunkRest_lt maxLength hL x hgt
    have hsple := splitPoint_le maxLength x
    have hdropne : x.drop ((rfindChar ' ' (x.take maxLength)).getD maxLength) ≠ [] := by
      intro hd
      have := congrArg List.length hd
      rw [List.length_drop] at this
      simp at this
      omega
    have hdlast : (x.drop ((rfindChar ' ' (x.take maxLength)).getD maxLength)).getLast?
        = some lc := by
      have h0 := getLast?_append_right
        (x.take ((rfindChar ' ' (x.take maxLength)).getD maxLength))
        (x.drop ((rfindChar ' ' (x.take maxLength)).getD maxLength)) hdropne
      rw [List.take_append_drop] at h0
      rw [← h0]
      exact hlc
    have hrestne : (x.drop ((rfindChar ' ' (x.take maxLength)).getD maxLength)).dropWhile
        pyIsSpace ≠ [] := by
      intro hr
      rw [List.dropWhile_eq_nil_iff] at hr
      have hmem : lc ∈ x.drop ((rfindChar ' ' (x.take maxLength)).getD maxLength) := by
        obtain ⟨hne', heq⟩ := List.mem_getLast?_eq_getLast (Option.mem_def.mpr hdlast)
        rw [heq]
        exact List.getLast_mem hne'
      rw [hr lc hmem] at hsp
      exact absurd hsp (by simp)
    have hrestlast : ((x.drop ((rfindChar ' ' (x.take maxLength)).getD maxLength)).dropWhile
        pyIsSpace).getLast? = some lc := by
      have h0 := getLast?_append_right
        ((x.drop ((rfindChar ' ' (x.take maxLength)).getD maxLength)).takeWhile pyIsSpace)
        ((x.drop ((rfindChar ' ' (x.take maxLength)).getD maxLength)).dropWhile pyIsSpace)
        hrestne
      rw [List.takeWhile_append_dropWhile] at h0
      rw [← h0]
      exact hdlast
    obtain ⟨cl, hcl⟩ := ih hlt lc hrestlast hsp
    refine ⟨cl, ?_⟩
    rw [sendEvents_step maxLength x hgt hlt]
    rcases hev : send_private_message_events maxLength
        ((x.drop ((rfindChar ' ' (x.take maxLength)).getD maxLength)).dropWhile pyIsSpace)
      with _ | ⟨e, es⟩
    · rw [hev] at hcl
      exact absurd hcl (by simp)
    · rw [List.getLast?_cons_cons, List.getLast?_cons_cons, List.getLast?_cons_cons]
      rw [hev] at hcl
      exact hcl

/-- Counterexample to claim C8 as stated, at max length 5 and text
`"ab\tcd   "`: the first 5 characters contain a whitespace boundary (the tab
at index 2), yet the code hard-cuts at 5 because it searches only for `' '`;
and because the remainder strips to empty, a pacing delay IS emitted after
the final chunk. -/
theorem C8_counterexample :
    send_private_message_events 5 ("ab\tcd   ".toList)
      = [SendEvent.chunk ("ab\tcd".toList), SendEvent.removedWs ("   ".toList),
          SendEvent.sleep]
    ∧ (send_private_message_events 5 ("ab\tcd   ".toList)).getLast? = some SendEvent.sleep
    ∧ ("ab\tcd   ".toList)[2]? = some '\t'
    ∧ pyIsSpace '\t' = true
    ∧ (("ab\tcd   ".toList).take 5).length = 5 := by
  have hrest : (("ab\tcd   ".toList).drop
      ((rfindChar ' ' (("ab\tcd   ".toList).take 5)).getD 5)).dropWhile pyIsSpace
      = ([] : List Char) := by decide
  have h1 : send_private_message_events 5 ("ab\tcd   ".toList)
      = [SendEvent.chunk ("ab\tcd".toList), SendEvent.removedWs ("   ".toList),
          SendEvent.sleep] := by
    rw [sendEvents_step 5 ("ab\tcd   ".toList) (by decide) (by decide)]
    rw [hrest, sendEvents_nil]
    decide
  refine ⟨h1, ?_, by decide, by decide, by decide⟩
  rw [h1]
  rfl

/-- Claim C8 (amended): for every text and every positive max length L, each
emitted chunk has length at most L; each split is made at the last space
(`' '`, the only character the code searches for) in the first L characters,
with a hard cut at L when no space occurs there; leading whitespace is
stripped from the remainder, and concatenating the chunks with the stripped
whitespace re-inserted reconstructs the original text; and when the text does
not end in whitespace the final event is a chunk, i.e. no pacing delay
follows the final chunk (when the remainder of a split strips to empty, the
loop does emit one trailing delay). -/
theorem C8_chunking_amended (maxLength : Nat) (hL : 1 ≤ maxLength) (message : List Char) :
    (∀ c, SendEvent.chunk c ∈ send_private_message_events maxLength message →
      c.length ≤ maxLength)
    ∧ ((send_private_message_events maxLength message).map eventText).flatten = message
    ∧ (∀ w, SendEvent.removedWs w ∈ send_private_message_events maxLength message →
        ∀ ch ∈ w, pyIsSpace ch = true)
    ∧ (maxLength < message.length →
        ((∃ i : Nat, (message.take maxLength)[i]? = some ' '
            ∧ (∀ j : Nat, i < j → (message.take maxLength)[j]? ≠ some ' ')
            ∧ (send_private_message_events maxLength message).head?
                = some (SendEvent.chunk (message.take i)))
          ∨ ((∀ j : Nat, (message.take maxLength)[j]? ≠ some ' ')
            ∧ (send_private_message_events maxLength message).head?
                = some (SendEvent.chunk (message.take maxLength)))))
    ∧ (∀ lc, message.getLast? = some lc → pyIsSpace lc = false →
        ∃ cl, (send_private_message_events maxLength message).getLast?
            = some (SendEvent.chunk cl)) := by
  refine ⟨sendEvents_chunk_le maxLength hL message,
    sendEvents_reconstruct maxLength hL message,
    sendEvents_removed_ws maxLength hL message, ?_,
    sendEvents_last_chunk maxLength hL message⟩
  intro hgt
  have hlt := chunkRest_lt maxLength hL message hgt
  rw [sendEvents_step maxLength message hgt hlt]
  cases hf : rfindChar ' ' (message.take maxLength) with
  | some i =>
    left
    exact ⟨i, rfindChar_getElem ' ' _ i hf, rfindChar_last ' ' _ i hf, rfl⟩
  | none =>
    right
    exact ⟨rfindChar_none_getElem ' ' _ hf, rfl⟩

/-- Witness for the amended C8 at max length 5 and text `"hello world"`. -/
theorem C8_witness :
    1 ≤ 5
    ∧ ((∀ c, SendEvent.chunk c ∈ send_private_message_events 5 ("hello world".toList) →
          c.length ≤ 5)
      ∧ ((send_private_message_events 5 ("hello world".toList)).map eventText).flatten
          = "hello world".toList
      ∧ (∀ w, SendEvent.removedWs w ∈ send_private_message_events 5 ("hello world".toList) →
          ∀ ch ∈ w, pyIsSpace ch = true)
      ∧ (5 < ("hello world".toList).length →
          ((∃ i : Nat, (("hello world".toList).take 5)[i]? = some ' '
              ∧ (∀ j : Nat, i < j → (("hello world".toList).take 5)[j]? ≠ some ' ')
              ∧ (send_private_message_events 5 ("hello world".toList)).head?
                  = some (SendEvent.chunk (("hello world".toList).take i)))
            ∨ ((∀ j : Nat, (("hello world".toList).take 5)[j]? ≠ some ' ')
              ∧ (send_private_message_events 5 ("hello world".toList)).head?
                  = some (SendEvent.chunk (("hello world".toList).take 5)))))
      ∧ (∀ lc, ("hello world".toList).getLast? = some lc → pyIsSpace lc = false →
          ∃ cl, (send_private_message_events 5 ("hello world".toList)).getLast?
              = some (SendEvent.chunk cl))) :=
  ⟨by norm_num, C8_chunking_amended 5 (by norm_num) ("hello world".toList)⟩

/-- The per-result reply loop emits only replies and delays — never a
rate-limiter record. -/
theorem resultEffects_no_record (sender : List Char) :
    ∀ (rs : List SearchResult) (i : Nat),
      (resultEffects sender i rs).filter (fun e => e = Effect.recordReq) = [] := by
  intro rs
  induction rs with
  | nil => intro i; rfl
  | cons r rs ih =>
    intro i
    rw [resultEffects]
    rw [List.filter_cons_of_neg (by simp), List.filter_cons_of_neg (by simp)]
    exact ih (i + 1)

/-- Claim C9: the search operation returns an ordered list of at most five
results (a prefix of the collaborator's result list, so in collaborator
order); any failure — a raised exception (timeout, transport, decode) or a
non-200 status — yields the empty list; and the only user-visible outcome of
such a failure is exactly that of a genuinely empty result set: the handler
produces the identical state and reply trace. -/
theorem C9_search_failure_as_empty (r : HttpResult) (status : Int)
    (res : List SearchResult) (rl : RateLimiter) (now : Int)
    (sender message : List Char) :
    (search_hearch r).length ≤ 5
    ∧ search_hearch (HttpResult.ok 200 res) <+: res
    ∧ search_hearch HttpResult.exn = []
    ∧ (status ≠ 200 → search_hearch (HttpResult.ok status res) = [])
    ∧ handle_private_message rl now sender message HttpResult.exn
        = handle_private_message rl now sender message (HttpResult.ok 200 []) := by
  refine ⟨?_, ?_, rfl, ?_, ?_⟩
  · cases r with
    | exn => simp [search_hearch]
    | ok s rs =>
      by_cases hs : s = 200
      · simp only [search_hearch, if_pos hs, List.length_take]
        omega
      · simp [search_hearch, hs]
  · show res.take 5 <+: res
    exact ⟨res.drop 5, List.take_append_drop 5 res⟩
  · intro hs
    simp [search_hearch, hs]
  · have hsearch : search_hearch HttpResult.exn
        = search_hearch (HttpResult.ok 200 []) := by
      simp [search_hearch]
    simp [handle_private_message, hsearch]

/-- Witness for C9 at concrete inputs (exception outcome, status 404, empty
result list, fresh limiter). -/
theorem C9_witness :
    (search_hearch HttpResult.exn).length ≤ 5
    ∧ search_hearch (HttpResult.ok 200 []) <+: ([] : List SearchResult)
    ∧ search_hearch HttpResult.exn = []
    ∧ ((404 : Int) ≠ 200 → search_hearch (HttpResult.ok 404 []) = [])
    ∧ handle_private_message (RateLimiter.mk 5 500 [] []) 0 ("alice".toList)
        ("!search x".toList) HttpResult.exn
      = handle_private_message (RateLimiter.mk 5 500 [] []) 0 ("alice".toList)
        ("!search x".toList) (HttpResult.ok 200 []) :=
  C9_search_failure_as_empty HttpResult.exn 404 [] (RateLimiter.mk 5 500 [] []) 0
    ("alice".toList) ("!search x".toList)

/-- Counterexample to claim C3 as stated: in a successful gated request the
external search collaborator is invoked FIRST and the rate limiter records
AFTER it returns (trace index 0 is the search call, index 1 the record), so
"the record happens before the external search collaborator is invoked" is
false on the code. -/
theorem C3_counterexample :
    (handle_private_message (RateLimiter.mk 5 500 [] []) 0 ("alice".toList)
        ("!search x".toList) (HttpResult.ok 200 [])).2
      = [Effect.searchCall ("x".toList), Effect.recordReq,
          Effect.pm ("alice".toList) noResultsNotice]
    ∧ ((handle_private_message (RateLimiter.mk 5 500 [] []) 0 ("alice".toList)
        ("!search x".toList) (HttpResult.ok 200 [])).2)[0]?
      = some (Effect.searchCall ("x".toList))
    ∧ ((handle_private_message (RateLimiter.mk 5 500 [] []) 0 ("alice".toList)
        ("!search x".toList) (HttpResult.ok 200 [])).2)[1]?
      = some Effect.recordReq := by
  refine ⟨?_, ?_, ?_⟩ <;> decide

/-- Claim C3 (amended): for every private message handled, the rate limiter
records (`add_request`) exactly when the message is a search command with
non-empty trailing text AND the gate check returned true — never on a
malformed, non-command, or empty-query message — it records exactly once for
that request, and the record happens immediately AFTER the external search
collaborator is invoked, before any reply is sent; on every other message the
limiter state is at most pruned by the gate check, never appended to. -/
theorem C3_record_discipline (rl : RateLimiter) (now : Int) (sender message : List Char)
    (httpR : HttpResult) :
    (((handle_private_message rl now sender message httpR).2.filter
          (fun e => e = Effect.recordReq)).length
        = if ("!search ".toList).isPrefixOf message = true
              ∧ (rl.can_make_request now).1 = true ∧ pyStrip (message.drop 8) ≠ []
          then 1 else 0)
    ∧ ((("!search ".toList).isPrefixOf message = true
          ∧ (rl.can_make_request now).1 = true ∧ pyStrip (message.drop 8) ≠ []) →
        ((handle_private_message rl now sender message httpR).1
            = (rl.can_make_request now).2.add_request now
          ∧ ∃ tail, (handle_private_message rl now sender message httpR).2
              = Effect.searchCall (pyStrip (message.drop 8)) :: Effect.recordReq :: tail))
    ∧ (¬(("!search ".toList).isPrefixOf message = true
          ∧ (rl.can_make_request now).1 = true ∧ pyStrip (message.drop 8) ≠ []) →
        ((handle_private_message rl now sender message httpR).1 = rl
          ∨ (handle_private_message rl now sender message httpR).1
              = (rl.can_make_request now).2)) := by
  by_cases hpre : ("!search ".toList).isPrefixOf message = true
  · by_cases hgate : (rl.can_make_request now).1 = true
    · by_cases hq : pyStrip (message.drop 8) = []
      · have hh : handle_private_message rl now sender message httpR
            = ((rl.can_make_request now).2, [Effect.pm sender usageNotice]) := by
          rw [handle_private_message, if_pos hpre, if_neg (by simp [hgate]),
            if_pos (by simp [hq])]
        refine ⟨?_, ?_, ?_⟩
        · rw [hh, if_neg (fun hc => hc.2.2 hq)]
          simp
        · intro hc
          exact absurd hq hc.2.2
        · intro _
          rw [hh]
          right
          rfl
      · by_cases hres : search_hearch httpR = []
        · have hh : handle_private_message rl now sender message httpR
              = ((rl.can_make_request now).2.add_request now,
                  [Effect.searchCall (pyStrip (message.drop 8)), Effect.recordReq,
                    Effect.pm sender noResultsNotice]) := by
            rw [handle_private_message, if_pos hpre, if_neg (by simp [hgate]),
              if_neg (by simp [hq]), if_pos (by simp [hres])]
          refine ⟨?_, ?_, ?_⟩
          · rw [hh, if_pos ⟨hpre, hgate, hq⟩]
            simp
          · intro _
            rw [hh]
            exact ⟨rfl, [Effect.pm sender noResultsNotice], rfl⟩
          · intro hc
            exact absurd ⟨hpre, hgate, hq⟩ hc
        · have hh : handle_private_message rl now sender message httpR
              = ((rl.can_make_request now).2.add_request now,
                  [Effect.searchCall (pyStrip (message.drop 8)), Effect.recordReq]
                    ++ resultEffects sender 1 ((search_hearch httpR).take 5)
                    ++ [Effect.sleep, Effect.pm sender attributionText]) := by
            rw [handle_private_message, if_pos hpre, if_neg (by simp [hgate]),
              if_neg (by simp [hq]), if_neg (by simp [hres])]
          refine ⟨?_, ?_, ?_⟩
          · rw [hh, if_pos ⟨hpre, hgate, hq⟩]
            simp only [List.cons_append, List.nil_append, List.filter_cons]
            rw [List.filter_append]
            rw [resultEffects_no_record]
            simp
          · intro _
            rw [hh]
            exact ⟨rfl, resultEffects sender 1 ((search_hearch httpR).take 5)
              ++ [Effect.sleep, Effect.pm sender attributionText], rfl⟩
          · intro hc
            exact absurd ⟨hpre, hgate, hq⟩ hc
    · have hgate2 : (rl.can_make_request now).1 = false := by
        simpa using hgate
      have hh : handle_private_message rl now sender message httpR
          = ((rl.can_make_request now).2, [Effect.pm sender rateLimitNotice]) := by
        rw [handle_private_message, if_pos hpre, if_pos hgate2]
      refine ⟨?_, ?_, ?_⟩
      · rw [hh, if_neg (fun hc => hgate hc.2.1)]
        simp
      · intro hc
        exact absurd hc.2.1 hgate
      · intro _
        rw [hh]
        right
        rfl
  · by_cases hhelp : message = "!help".toList
    · have hh : handle_private_message rl now sender message httpR
          = (rl, [Effect.pm sender helpReplyText]) := by
        rw [handle_private_message, if_neg hpre, if_pos hhelp]
      refine ⟨?_, ?_, ?_⟩
      · rw [hh, if_neg (fun hc => hpre hc.1)]
        simp
      · intro hc
        exact absurd hc.1 hpre
      · intro _
        rw [hh]
        left
        rfl
    · have hh : handle_private_message rl now sender message httpR = (rl, []) := by
        rw [handle_private_message, if_neg hpre, if_neg hhelp]
      refine ⟨?_, ?_, ?_⟩
      · rw [hh, if_neg (fun hc => hpre hc.1)]
        simp
      · intro hc
        exact absurd hc.1 hpre
      · intro _
        rw [hh]
        left
        rfl

/-- Witness for the amended C3 at a fresh limiter, time 0, message
`"!search x"`, and an empty 200 response. -/
theorem C3_witness :
    (((handle_private_message (RateLimiter.mk 5 500 [] []) 0 ("alice".toList)
          ("!search x".toList) (HttpResult.ok 200 [])).2.filter
          (fun e => e = Effect.recordReq)).length
        = if ("!search ".toList).isPrefixOf ("!search x".toList) = true
              ∧ ((RateLimiter.mk 5 500 [] []).can_make_request 0).1 = true
              ∧ pyStrip (("!search x".toList).drop 8) ≠ []
          then 1 else 0)
    ∧ ((("!search ".toList).isPrefixOf ("!search x".toList) = true
          ∧ ((RateLimiter.mk 5 500 [] []).can_make_request 0).1 = true
          ∧ pyStrip (("!search x".toList).drop 8) ≠ []) →
        ((handle_private_message (RateLimiter.mk 5 500 [] []) 0 ("alice".toList)
              ("!search x".toList) (HttpResult.ok 200 [])).1
            = ((RateLimiter.mk 5 500 [] []).can_make_request 0).2.add_request 0
          ∧ ∃ tail, (handle_private_message (RateLimiter.mk 5 500 [] []) 0 ("alice".toList)
              ("!search x".toList) (HttpResult.ok 200 [])).2
              = Effect.searchCall (pyStrip (("!search x".toList).drop 8))
                  :: Effect.recordReq :: tail))
    ∧ (¬(("!search ".toList).isPrefixOf ("!search x".toList) = true
          ∧ ((RateLimiter.mk 5 500 [] []).can_make_request 0).1 = true
          ∧ pyStrip (("!search x".toList).drop 8) ≠ []) →
        ((handle_private_message (RateLimiter.mk 5 500 [] []) 0 ("alice".toList)
              ("!search x".toList) (HttpResult.ok 200 [])).1 = RateLimiter.mk 5 500 [] []
          ∨ (handle_private_message (RateLimiter.mk 5 500 [] []) 0 ("alice".toList)
              ("!search x".toList) (HttpResult.ok 200 [])).1
              = ((RateLimiter.mk 5 500 [] []).can_make_request 0).2)) :=
  C3_record_discipline (RateLimiter.mk 5 500 [] []) 0 ("alice".toList)
    ("!search x".toList) (HttpResult.ok 200 [])

/-- Counterexample to claim C4 as stated: on a denied search request the gate
check has already pruned the expired timestamp -70 from the minute window, so
the rate limiter's windows are NOT unchanged (exactly one reply and no
external call do hold). -/
theorem C4_counterexample :
    (handle_private_message (RateLimiter.mk 5 500 [-70, -50, -40, -30, -20, -10]
        [-70, -50, -40, -30, -20, -10]) 0 ("alice".toList) ("!search x".toList)
        (HttpResult.ok 200 [])).2
      = [Effect.pm ("alice".toList) rateLimitNotice]
    ∧ (handle_private_message (RateLimiter.mk 5 500 [-70, -50, -40, -30, -20, -10]
        [-70, -50, -40, -30, -20, -10]) 0 ("alice".toList) ("!search x".toList)
        (HttpResult.ok 200 [])).1.minute_window
      ≠ [-70, -50, -40, -30, -20, -10] := by
  refine ⟨?_, ?_⟩ <;> decide

/-- Claim C4 (amended): for every private search command with non-empty query
received while the gate check returns false, exactly one private reply is
sent — the rate-limit notice, which fits in a single delivery line — the
external search collaborator is not called, and no timestamp is recorded: the
limiter state changes only by the pruning the gate check itself performs. -/
theorem C4_rate_limited (rl : RateLimiter) (now : Int) (sender message : List Char)
    (httpR : HttpResult)
    (hpre : ("!search ".toList).isPrefixOf message = true)
    (hquery : pyStrip (message.drop 8) ≠ [])
    (hgate : (rl.can_make_request now).1 = false) :
    (handle_private_message rl now sender message httpR).2
        = [Effect.pm sender rateLimitNotice]
    ∧ (∀ q, Effect.searchCall q ∉ (handle_private_message rl now sender message httpR).2)
    ∧ Effect.recordReq ∉ (handle_private_message rl now sender message httpR).2
    ∧ (handle_private_message rl now sender message httpR).1 = (rl.can_make_request now).2
    ∧ send_private_message_events 400 rateLimitNotice = [SendEvent.chunk rateLimitNotice] := by
  have hh : handle_private_message rl now sender message httpR
      = ((rl.can_make_request now).2, [Effect.pm sender rateLimitNotice]) := by
    rw [handle_private_message, if_pos hpre, if_pos hgate]
  refine ⟨by rw [hh], ?_, ?_, by rw [hh], ?_⟩
  · intro q hq
    rw [hh] at hq
    simp at hq
  · intro hr
    rw [hh] at hr
    simp at hr
  · exact sendEvents_fits 400 rateLimitNotice (by decide) (by decide)

/-- Witness for the amended C4: zero capacities force a denial. -/
theorem C4_witness :
    (("!search ".toList).isPrefixOf ("!search x".toList) = true
      ∧ pyStrip (("!search x".toList).drop 8) ≠ []
      ∧ ((RateLimiter.mk 0 0 [] []).can_make_request 0).1 = false)
    ∧ ((handle_private_message (RateLimiter.mk 0 0 [] []) 0 ("alice".toList)
          ("!search x".toList) (HttpResult.ok 200 [])).2
        = [Effect.pm ("alice".toList) rateLimitNotice]
      ∧ (∀ q, Effect.searchCall q ∉ (handle_private_message (RateLimiter.mk 0 0 [] []) 0
          ("alice".toList) ("!search x".toList) (HttpResult.ok 200 [])).2)
      ∧ Effect.recordReq ∉ (handle_private_message (RateLimiter.mk 0 0 [] []) 0
          ("alice".toList) ("!search x".toList) (HttpResult.ok 200 [])).2
      ∧ (handle_private_message (RateLimiter.mk 0 0 [] []) 0 ("alice".toList)
          ("!search x".toList) (HttpResult.ok 200 [])).1
          = ((RateLimiter.mk 0 0 [] []).can_make_request 0).2
      ∧ send_private_message_events 400 rateLimitNotice
          = [SendEvent.chunk rateLimitNotice]) :=
  ⟨⟨by decide, by decide, by decide⟩,
    C4_rate_limited (RateLimiter.mk 0 0 [] []) 0 ("alice".toList) ("!search x".toList)
      (HttpResult.ok 200 []) (by decide) (by decide) (by decide)⟩

/-- Counterexample to claim C5 as stated: the gate check runs BEFORE the
empty-query check, so a rate-limited empty-query search gets the rate-limit
notice, not the usage notice. -/
theorem C5_counterexample :
    (handle_private_message (RateLimiter.mk 0 0 [] []) 0 ("alice".toList)
        ("!search    ".toList) (HttpResult.ok 200 [])).2
      = [Effect.pm ("alice".toList) rateLimitNotice]
    ∧ pyStrip (("!search    ".toList).drop 8) = []
    ∧ rateLimitNotice ≠ usageNotice := by
  refine ⟨?_, ?_, ?_⟩ <;> decide

/-- Claim C5 (amended): for every private search command with empty trailing
text received while the gate check returns true, exactly one private reply is
sent — the usage notice, a single delivery line — the external collaborator
is not called, and no timestamp is recorded: the limiter state changes only
by the pruning the gate check itself performs.  (When the gate check returns
false, the rate-limit notice is sent instead, as the counterexample shows.) -/
theorem C5_empty_query (rl : RateLimiter) (now : Int) (sender message : List Char)
    (httpR : HttpResult)
    (hpre : ("!search ".toList).isPrefixOf message = true)
    (hquery : pyStrip (message.drop 8) = [])
    (hgate : (rl.can_make_request now).1 = true) :
    (handle_private_message rl now sender message httpR).2 = [Effect.pm sender usageNotice]
    ∧ (∀ q, Effect.searchCall q ∉ (handle_private_message rl now sender message httpR).2)
    ∧ Effect.recordReq ∉ (handle_private_message rl now sender message httpR).2
    ∧ (handle_private_message rl now sender message httpR).1 = (rl.can_make_request now).2
    ∧ send_private_message_events 400 usageNotice = [SendEvent.chunk usageNotice] := by
  have hh : handle_private_message rl now sender message httpR
      = ((rl.can_make_request now).2, [Effect.pm sender usageNotice]) := by
    rw [handle_private_message, if_pos hpre, if_neg (by simp [hgate]),
      if_pos (by simp [hquery])]
  refine ⟨by rw [hh], ?_, ?_, by rw [hh], ?_⟩
  · intro q hq
    rw [hh] at hq
    simp at hq
  · intro hr
    rw [hh] at hr
    simp at hr
  · exact sendEvents_fits 400 usageNotice (by decide) (by decide)

/-- Witness for the amended C5: fresh limiter, message `"!search    "`. -/
theorem C5_witness :
    (("!search ".toList).isPrefixOf ("!search    ".toList) = true
      ∧ pyStrip (("!search    ".toList).drop 8) = []
      ∧ ((RateLimiter.mk 5 500 [] []).can_make_request 0).1 = true)
    ∧ ((handle_private_message (RateLimiter.mk 5 500 [] []) 0 ("alice".toList)
          ("!search    ".toList) (HttpResult.ok 200 [])).2
        = [Effect.pm ("alice".toList) usageNotice]
      ∧ (∀ q, Effect.searchCall q ∉ (handle_private_message (RateLimiter.mk 5 500 [] []) 0
          ("alice".toList) ("!search    ".toList) (HttpResult.ok 200 [])).2)
      ∧ Effect.recordReq ∉ (handle_private_message (RateLimiter.mk 5 500 [] []) 0
          ("alice".toList) ("!search    ".toList) (HttpResult.ok 200 [])).2
      ∧ (handle_private_message (RateLimiter.mk 5 500 [] []) 0 ("alice".toList)
          ("!search    ".toList) (HttpResult.ok 200 [])).1
          = ((RateLimiter.mk 5 500 [] []).can_make_request 0).2
      ∧ send_private_message_events 400 usageNotice = [SendEvent.chunk usageNotice]) :=
  ⟨⟨by decide, by decide, by decide⟩,
    C5_empty_query (RateLimiter.mk 5 500 [] []) 0 ("alice".toList)
      ("!search    ".toList) (HttpResult.ok 200 []) (by decide) (by decide) (by decide)⟩

/-- For claim C6: a framed line containing the `"PRIVMSG "` separator but no
`":"` after it makes the two-element unpacking raise `ValueError`, which the
loop's `except IndexError` does not catch — the exception escapes the
dispatch loop (tearing the session down to the reconnect handler) instead of
the line being skipped; a line missing the `"PRIVMSG "` separator is skipped
silently, and a well-formed line is routed normally. -/
theorem C6_missing_colon_escapes :
    dispatchLine ("SearchBot".toList) [("#test_room".toList)]
        (":alice!u@h PRIVMSG SearchBot hello".toList) = Except.error PyErr.valueError
    ∧ dispatchLine ("SearchBot".toList) [("#test_room".toList)]
        (":alice!u@h PRIVMSG".toList) = Except.ok []
    ∧ dispatchLine ("SearchBot".toList) [("#test_room".toList)]
        (":alice!u@h PRIVMSG SearchBot :hi".toList)
      = Except.ok [LineAction.privateMsg ("alice".toList) ("hi".toList)] := by
  refine ⟨?_, ?_, ?_⟩ <;> rfl

/-- A valid UTF-8 sequence at the head of a byte list stays valid, with the
same scalar value and length, when more bytes are appended. -/
theorem utf8Step_append (bb : List Nat) :
    ∀ (l : List Nat) (v k : Nat), utf8Step l = some (v, k) →
      utf8Step (l ++ bb) = some (v, k) := by
  intro l v k h
  cases l with
  | nil => simp [utf8Step] at h
  | cons b rest =>
    simp only [utf8Step, List.cons_append] at h ⊢
    repeat' split at h
    all_goals simp_all
    all_goals (repeat' split) <;> first | rfl | (exfalso; omega)

/-- A decoded head sequence never consumes more bytes than the list holds. -/
theorem utf8Step_le_length :
    ∀ (l : List Nat) (v k : Nat), utf8Step l = some (v, k) → k ≤ l.length := by
  intro l v k h
  cases l with
  | nil => simp [utf8Step] at h
  | cons b rest =>
    simp only [utf8Step] at h
    repeat' split at h
    all_goals simp_all
    all_goals omega

/-- Decoding the empty byte sequence succeeds with the empty text. -/
theorem utf8Decode_nil : utf8Decode [] = some [] := by
  rw [utf8Decode.eq_def]

/-- Unfolding lemma: decoding a non-empty byte list decodes the head
sequence, then the rest. -/
theorem utf8Decode_cons (b : Nat) (rest : List Nat) :
    utf8Decode (b :: rest)
      = match utf8Step (b :: rest) with
        | none => none
        | some (v, k) =>
          (utf8Decode (rest.drop (k - 1))).map (fun s => Char.ofNat v :: s) := by
  rw [utf8Decode.eq_def]

/-- Decoding fails as soon as the head sequence is invalid. -/
theorem utf8Decode_step_none (b : Nat) (rest : List Nat)
    (h : utf8Step (b :: rest) = none) :
    utf8Decode (b :: rest) = none := by
  rw [utf8Decode_cons, h]

/-- Decoding a list whose head sequence is valid decodes that sequence and
recurses past it. -/
theorem utf8Decode_step_some (b : Nat) (rest : List Nat) (v k : Nat)
    (h : utf8Step (b :: rest) = some (v, k)) :
    utf8Decode (b :: rest)
      = (utf8Decode (rest.drop (k - 1))).map (fun s => Char.ofNat v :: s) := by
  rw [utf8Decode_cons, h]

/-- UTF-8 decoding is compositional over a fully-decodable left part: this
is what makes chunk boundaries that fall BETWEEN characters harmless, and
only those. -/
theorem utf8Decode_append (b2 : List Nat) :
    ∀ a : List Nat, ∀ sa : List Char, utf8Decode a = some sa →
      utf8Decode (a ++ b2) = (utf8Decode b2).map (fun sb => sa ++ sb) := by
  intro a
  induction a using utf8Decode.induct with
  | case1 =>
    intro sa h
    rw [utf8Decode_nil] at h
    simp only [Option.some.injEq] at h
    subst h
    cases hb : utf8Decode b2 <;> simp [hb]
  | case2 b rest hstep =>
    intro sa h
    rw [utf8Decode_step_none b rest hstep] at h
    exact absurd h (by simp)
  | case3 b rest v k hstep ih =>
    intro sa h
    rw [utf8Decode_step_some b rest v k hstep] at h
    obtain ⟨s', hs', hcons⟩ := Option.map_eq_some'.mp h
    subst hcons
    have hk : k ≤ (b :: rest).length := utf8Step_le_length _ _ _ hstep
    have hstep' : utf8Step (b :: (rest ++ b2)) = some (v, k) := by
      have := utf8Step_append b2 (b :: rest) v k hstep
      simpa using this
    rw [List.cons_append, utf8Decode_step_some b (rest ++ b2) v k hstep']
    have hdrop : (rest ++ b2).drop (k - 1) = rest.drop (k - 1) ++ b2 := by
      rw [List.drop_append_of_le_length]
      simp at hk
      omega
    rw [hdrop, ih s' hs']
    cases utf8Decode b2 <;> simp

/-- Concatenating individually valid chunks decodes to the concatenation of
the decoded texts. -/
theorem utf8Decode_flatten :
    ∀ cs : List (List Nat), (∀ c ∈ cs, (utf8Decode c).isSome = true) →
      utf8Decode cs.flatten = some (decodedChunks cs).flatten := by
  intro cs
  induction cs with
  | nil => intro _; simp [decodedChunks, utf8Decode_nil]
  | cons c cs ih =>
    intro hv
    obtain ⟨sc, hsc⟩ := Option.isSome_iff_exists.mp (hv c (by simp))
    have hrest : utf8Decode cs.flatten = some (decodedChunks cs).flatten :=
      ih (fun d hd => hv d (by simp [hd]))
    simp only [List.flatten_cons]
    rw [utf8Decode_append cs.flatten c sc hsc, hrest]
    simp [decodedChunks, hsc]

/-- When every received chunk decodes, the byte-level receive loop coincides
with the text-level framing on the decoded texts. -/
theorem byteRun_eq_framerRun :
    ∀ (cs : List (List Nat)) (buffer : List Char),
      (∀ c ∈ cs, (utf8Decode c).isSome = true) →
      byteRun buffer cs = framerRun buffer (decodedChunks cs) := by
  intro cs
  induction cs with
  | nil => intro buffer _; rfl
  | cons c cs ih =>
    intro buffer hv
    obtain ⟨sc, hsc⟩ := Option.isSome_iff_exists.mp (hv c (by simp))
    have hfeed : byteFeed buffer c = framerFeed buffer sc := by
      rw [byteFeed, hsc]
    simp only [byteRun, framerRun, decodedChunks, List.map_cons, hfeed, hsc,
      Option.getD_some]
    rw [ih (framerFeed buffer sc).2 (fun d hd => hv d (by simp [hd]))]
    rfl

/-- The lone leading byte `0xC3` is a truncated two-byte sequence:
`b"\xc3".decode("UTF-8")` raises `UnicodeDecodeError`. -/
theorem utf8Decode_C3_none : utf8Decode [0xC3] = none := by
  apply utf8Decode_step_none
  decide

/-- A chunk starting with the bare continuation byte `0xA9` fails to decode
even though the rest is plain ASCII. -/
theorem utf8Decode_cont_first_none : utf8Decode [0xA9, 0x0D, 0x0A] = none := by
  apply utf8Decode_step_none
  decide

/-- Decoding a lone line feed. -/
theorem utf8Decode_LF : utf8Decode [0x0A] = some ['\n'] := by
  rw [utf8Decode_step_some 0x0A [] 0x0A 1 (by decide)]
  simp [utf8Decode_nil]

/-- Decoding a bare CRLF terminator. -/
theorem utf8Decode_CRLF : utf8Decode [0x0D, 0x0A] = some ['\r', '\n'] := by
  rw [utf8Decode_step_some 0x0D [0x0A] 0x0D 1 (by decide)]
  show (utf8Decode [0x0A]).map _ = _
  rw [utf8Decode_LF]
  simp

/-- The full byte sequence `C3 A9 0D 0A` decodes to an e-acute character
followed by CRLF. -/
theorem utf8Decode_eacute_line : utf8Decode [0xC3, 0xA9, 0x0D, 0x0A]
    = some [Char.ofNat 0xE9, '\r', '\n'] := by
  rw [utf8Decode_step_some 0xC3 [0xA9, 0x0D, 0x0A] 0xE9 2 (by decide)]
  show (utf8Decode [0x0D, 0x0A]).map _ = _
  rw [utf8Decode_CRLF]
  rfl

/-- Counterexample to claim C7 as stated: the byte stream
`C3 A9 0D 0A` (an e-acute followed by CRLF) delivered in one chunk yields
one complete line, but the same bytes split INSIDE the two-byte character —
chunks `[C3]` and `[A9 0D 0A]` — yield no lines at all: each chunk alone
fails `bytes.decode("UTF-8")` (searchbot.py line 323), the
`UnicodeDecodeError` handler discards the buffer (lines 351-353), and the
line is lost.  Split invariance does NOT hold for arbitrary byte-boundary
partitions. -/
theorem C7_counterexample :
    ([[0xC3], [0xA9, 0x0D, 0x0A]] : List (List Nat)).flatten
        = [0xC3, 0xA9, 0x0D, 0x0A]
    ∧ utf8Decode [0xC3, 0xA9, 0x0D, 0x0A] = some [Char.ofNat 0xE9, '\r', '\n']
    ∧ byteRun [] [[0xC3], [0xA9, 0x0D, 0x0A]] = ([], [])
    ∧ byteRun [] [[0xC3, 0xA9, 0x0D, 0x0A]] = ([[Char.ofNat 0xE9]], [])
    ∧ byteRun [] [[0xC3], [0xA9, 0x0D, 0x0A]]
        ≠ byteRun [] [[0xC3, 0xA9, 0x0D, 0x0A]] := by
  have e1 : byteRun [] [[0xC3], [0xA9, 0x0D, 0x0A]] = ([], []) := by
    simp [byteRun, byteFeed, utf8Decode_C3_none, utf8Decode_cont_first_none]
  have e2 : byteRun [] [[0xC3, 0xA9, 0x0D, 0x0A]] = ([[Char.ofNat 0xE9]], []) := by
    simp only [byteRun, byteFeed, utf8Decode_eacute_line]
    decide
  refine ⟨rfl, utf8Decode_eacute_line, e1, e2, ?_⟩
  rw [e1, e2]
  simp

/-- Claim C7 (amended): for a partition of the byte stream at CHARACTER
boundaries — every chunk individually valid UTF-8, so no chunk ever splits a
multi-byte character — feeding the chunks one at a time through the receive
loop (decode, append to buffer, split on CRLF, pop the final part) produces
exactly the same complete lines, in the same order, and the same final
buffer as feeding the whole concatenation at once.  Arbitrary byte splits
are NOT invariant (see the counterexample): a split inside a character makes
the per-chunk decode of searchbot.py line 323 raise, and lines 351-353 then
discard the buffer. -/
theorem C7_byte_framing_amended (chunks : List (List Nat))
    (hv : ∀ c ∈ chunks, (utf8Decode c).isSome = true) :
    byteRun [] chunks = byteRun [] [chunks.flatten] := by
  rw [byteRun_eq_framerRun chunks [] hv]
  have hflat : utf8Decode chunks.flatten = some (decodedChunks chunks).flatten :=
    utf8Decode_flatten chunks hv
  have h2 : byteRun [] [chunks.flatten]
      = framerRun [] [(decodedChunks chunks).flatten] := by
    have : byteRun [] [chunks.flatten]
        = framerRun [] (decodedChunks [chunks.flatten]) :=
      byteRun_eq_framerRun [chunks.flatten] []
        (by intro c hc; simp at hc; subst hc; simp [hflat])
    rw [this]
    simp [decodedChunks, hflat]
  rw [h2]
  exact framerRun_split_invariant (decodedChunks chunks)

/-- Witness for C7 (amended): the concrete stream `a CR / LF b` split
between CR and LF — a mid-line, mid-terminator, but character-boundary
split — produces the same result as the unsplit stream. -/
theorem C7_witness :
    (∀ c ∈ ([[0x61, 0x0D], [0x0A, 0x62]] : List (List Nat)),
        (utf8Decode c).isSome = true)
    ∧ byteRun [] [[0x61, 0x0D], [0x0A, 0x62]]
        = byteRun [] [([[0x61, 0x0D], [0x0A, 0x62]] : List (List Nat)).flatten] := by
  have d1 : utf8Decode [0x61, 0x0D] = some ['a', '\r'] := by
    rw [utf8Decode_step_some 0x61 [0x0D] 0x61 1 (by decide)]
    show (utf8Decode [0x0D]).map _ = _
    rw [utf8Decode_step_some 0x0D [] 0x0D 1 (by decide)]
    simp [utf8Decode_nil]
  have d2 : utf8Decode [0x0A, 0x62] = some ['\n', 'b'] := by
    rw [utf8Decode_step_some 0x0A [0x62] 0x0A 1 (by decide)]
    show (utf8Decode [0x62]).map _ = _
    rw [utf8Decode_step_some 0x62 [] 0x62 1 (by decide)]
    simp [utf8Decode_nil]
  have hv : ∀ c ∈ ([[0x61, 0x0D], [0x0A, 0x62]] : List (List Nat)),
      (utf8Decode c).isSome = true := by
    intro c hc
    simp only [List.mem_cons, List.not_mem_nil, or_false] at hc
    rcases hc with rfl | rfl
    · rw [d1]; rfl
    · rw [d2]; rfl
  exact ⟨hv, C7_byte_framing_amended [[0x61, 0x0D], [0x0A, 0x62]] hv⟩
